import Mathlib

/-!
Verification of the `cars-indian` repository: a shallow embedding of the
dealer-index module (`src/lib/dealers.ts`), the slug utilities
(`src/lib/slug.ts`), the cars API client (`src/lib/api.ts`), the SQL-over-HTTP
`getCars` variant, the contact-form REST handler, and the migration-script
helpers (`mapWithConcurrency`, `ensureUploaded`).

JavaScript strings are modelled as lists of Unicode code points (`List Char`).
UTF-16 surrogate-pair behaviour is not modelled; for the inputs at issue
(ASCII-dominated slugs, identifiers and SQL text) code points and code units
coincide.  The JS built-ins `String.prototype.normalize('NFKD')` and
`String.prototype.toLowerCase` are taken as parameters (`nfkd`, `lower`) of the
definitions that use them, since they are platform functions, not repository
code; theorems that need facts about them state those facts as hypotheses that
hold of the real Unicode functions (e.g. that NFKD fixes ASCII slug
characters).
-/

namespace CarsIndian

/-! ### JS string primitives -/

/-- JS strings as lists of Unicode code points. -/
abbrev JStr := List Char

/-- Coerce a Lean string literal to the JS-string model. -/
def str (s : String) : JStr := s.toList

/-- The apostrophe character. -/
def apos : Char := Char.ofNat 39

/-- ECMAScript WhiteSpace ∪ LineTerminator code points (`String.prototype.trim`
removes exactly these; the Unicode `Zs` members are enumerated). -/
def isJsWhitespace (c : Char) : Bool :=
  decide (c.toNat ∈ ([9, 10, 11, 12, 13, 32, 160, 0x1680, 0x2000, 0x2001,
    0x2002, 0x2003, 0x2004, 0x2005, 0x2006, 0x2007, 0x2008, 0x2009, 0x200a,
    0x2028, 0x2029, 0x202f, 0x205f, 0x3000, 0xfeff] : List Nat))

/-- Drop characters satisfying `p` from both ends of a string.  Used for
`String.prototype.trim` and for the `/^-+|-+$/g` step of `slugify`. -/
def dropAround (p : Char → Bool) (l : JStr) : JStr :=
  ((l.dropWhile p).reverse.dropWhile p).reverse

/-- `String.prototype.trim`. -/
def jsTrim (l : JStr) : JStr := dropAround isJsWhitespace l

/-- JS `a || b` on strings (the empty string is falsy). -/
def jsOrStr (a b : JStr) : JStr := if a = [] then b else a

/-- `slug.ts` `safeText`: trim when the input is a string, else the fallback.
`Option JStr` models `string | undefined`. -/
def safeText (input : Option JStr) (fallback : JStr := []) : JStr :=
  match input with
  | some s => jsTrim s
  | none => fallback

/-- Worker for `squashRuns`: the flag records whether the previous source
character was part of a run matched by `p` (already replaced by `rep`). -/
def squashRunsAux (p : Char → Bool) (rep : Char) : Bool → JStr → JStr
  | _, [] => []
  | inRun, c :: cs =>
    if p c then
      if inRun then squashRunsAux p rep true cs
      else rep :: squashRunsAux p rep true cs
    else c :: squashRunsAux p rep false cs

/-- Replace every maximal nonempty run of characters satisfying `p` by the
single character `rep`: the JS `replace(/X+/g, rep)` idiom (for a character
class `X`).  Runs of length one are also replaced, so it equally models
the collapse-hyphen-runs regex step when `p` holds exactly of `rep` itself. -/
def squashRuns (p : Char → Bool) (rep : Char) (l : JStr) : JStr :=
  squashRunsAux p rep false l

/-- Lowercase ASCII letter or digit: the character class `[a-z0-9]`. -/
def isLowerAlnum (c : Char) : Bool :=
  (decide ('a' ≤ c) && decide (c ≤ 'z')) || (decide ('0' ≤ c) && decide (c ≤ '9'))

/-- Unicode combining marks removed by `slugify`: `/[̀-ͯ]/g`. -/
def isCombiningMark (c : Char) : Bool :=
  decide (0x300 ≤ c.toNat) && decide (c.toNat ≤ 0x36f)

/-- `slug.ts` `slugify`, parametric in the platform functions
`normalize('NFKD')` (`nfkd`, per code point) and `toLowerCase` (`lower`, per
code point).  The pipeline mirrors the source exactly:
normalize → strip combining marks → trim → lowercase → drop quotes →
replace `[^a-z0-9]+` runs by `-` → strip edge hyphens → collapse `-{2,}`. -/
def slugify (nfkd lower : Char → List Char) (input : JStr) : JStr :=
  let s1 := (input.flatMap nfkd).filter (fun c => !(isCombiningMark c))
  let s2 := jsTrim s1
  let s3 := s2.flatMap lower
  let s4 := s3.filter (fun c => !(c == apos || c == '"'))
  let s5 := squashRuns (fun c => !(isLowerAlnum c)) '-' s4
  let s6 := dropAround (fun c => c == '-') s5
  squashRuns (fun c => c == '-') '-' s6

/-- A character allowed in a finished slug: `[a-z0-9-]`. -/
def isSlugChar (c : Char) : Bool := isLowerAlnum c || c == '-'

/-! ### Generic lemmas about the string primitives -/

theorem mem_squashRunsAux {p : Char → Bool} {rep : Char} :
    ∀ {l : JStr} {b : Bool} {c : Char}, c ∈ squashRunsAux p rep b l →
      c = rep ∨ (c ∈ l ∧ p c = false) := by
  intro l
  induction l with
  | nil => intro b c h; simp [squashRunsAux] at h
  | cons d ds ih =>
    intro b c h
    by_cases hd : p d
    · simp only [squashRunsAux, hd, if_true] at h
      cases b with
      | true =>
        rcases ih h with h' | h'
        · exact Or.inl h'
        · exact Or.inr ⟨List.mem_cons_of_mem _ h'.1, h'.2⟩
      | false =>
        rcases List.mem_cons.mp h with h' | h'
        · exact Or.inl h'
        · rcases ih h' with h'' | h''
          · exact Or.inl h''
          · exact Or.inr ⟨List.mem_cons_of_mem _ h''.1, h''.2⟩
    · simp only [squashRunsAux, hd, if_false] at h
      rcases List.mem_cons.mp h with h' | h'
      · subst h'; exact Or.inr ⟨List.mem_cons_self _ _, by simpa using hd⟩
      · rcases ih h' with h'' | h''
        · exact Or.inl h''
        · exact Or.inr ⟨List.mem_cons_of_mem _ h''.1, h''.2⟩

theorem mem_squashRuns {p : Char → Bool} {rep : Char} {l : JStr} {c : Char}
    (h : c ∈ squashRuns p rep l) : c = rep ∨ (c ∈ l ∧ p c = false) :=
  mem_squashRunsAux h

theorem head_squashRunsAux_true {p : Char → Bool} {rep : Char} :
    ∀ {l : JStr} {c : Char}, (squashRunsAux p rep true l).head? = some c →
      p c = false := by
  intro l
  induction l with
  | nil => intro c h; simp [squashRunsAux] at h
  | cons d ds ih =>
    intro c h
    by_cases hd : p d
    · simp only [squashRunsAux, hd, if_true] at h
      exact ih h
    · simp only [squashRunsAux, hd, if_false, List.head?_cons] at h
      cases h; simpa using hd

/-- No two adjacent characters of a squashed string both satisfy `p`. -/
theorem chain'_squashRunsAux {p : Char → Bool} {rep : Char} :
    ∀ (l : JStr) (b : Bool),
      (squashRunsAux p rep b l).Chain' (fun a c => ¬(p a = true ∧ p c = true)) := by
  intro l
  induction l with
  | nil => intro b; simp [squashRunsAux]
  | cons d ds ih =>
    intro b
    by_cases hd : p d
    · simp only [squashRunsAux, hd, if_true]
      cases b with
      | true => exact ih true
      | false =>
        refine List.chain'_cons'.mpr ⟨?_, ih true⟩
        intro y hy hcontra
        exact absurd (head_squashRunsAux_true hy) (by simp [hcontra.2])
    · simp only [squashRunsAux, hd, if_false]
      refine List.chain'_cons'.mpr ⟨?_, ih false⟩
      intro y hy hcontra
      exact absurd hcontra.1 (by simpa using hd)

theorem chain'_squashRuns {p : Char → Bool} {rep : Char} (l : JStr) :
    (squashRuns p rep l).Chain' (fun a c => ¬(p a = true ∧ p c = true)) :=
  chain'_squashRunsAux l false

/-- A squash is the identity when every `p`-character already equals `rep` and
no two adjacent characters satisfy `p`. -/
theorem squashRunsAux_id {p : Char → Bool} {rep : Char} :
    ∀ (l : JStr), (∀ c ∈ l, p c = true → c = rep) →
      l.Chain' (fun a c => ¬(p a = true ∧ p c = true)) →
      squashRunsAux p rep false l = l ∧
        ((∀ h, l.head? = some h → p h = false) → squashRunsAux p rep true l = l) := by
  intro l
  induction l with
  | nil => intro _ _; exact ⟨rfl, fun _ => rfl⟩
  | cons d ds ih =>
    intro hrep hch
    have hch' := (List.chain'_cons'.mp hch)
    have ihds := ih (fun c hc => hrep c (List.mem_cons_of_mem _ hc)) hch'.2
    constructor
    · by_cases hd : p d
      · have hdeq : d = rep := hrep d (List.mem_cons_self _ _) hd
        have htail : ∀ h, ds.head? = some h → p h = false := by
          intro h hh
          by_contra hph
          exact hch'.1 h hh ⟨hd, by simpa using hph⟩
        show squashRunsAux p rep false (d :: ds) = d :: ds
        rw [squashRunsAux, if_pos hd, if_neg (by simp), ihds.2 htail, hdeq]
      · show squashRunsAux p rep false (d :: ds) = d :: ds
        rw [squashRunsAux, if_neg hd, ihds.1]
    · intro hhead
      have hd : p d = false := hhead d rfl
      show squashRunsAux p rep true (d :: ds) = d :: ds
      rw [squashRunsAux, if_neg (by simp [hd]), ihds.1]

theorem squashRuns_id {p : Char → Bool} {rep : Char} {l : JStr}
    (h1 : ∀ c ∈ l, p c = true → c = rep)
    (h2 : l.Chain' (fun a c => ¬(p a = true ∧ p c = true))) :
    squashRuns p rep l = l :=
  (squashRunsAux_id l h1 h2).1

theorem head_dropWhile {p : Char → Bool} :
    ∀ {l : JStr} {c : Char}, (l.dropWhile p).head? = some c → p c = false := by
  intro l
  induction l with
  | nil => intro c h; simp [List.dropWhile] at h
  | cons d ds ih =>
    intro c h
    by_cases hd : p d
    · rw [List.dropWhile_cons_of_pos hd] at h; exact ih h
    · rw [List.dropWhile_cons_of_neg hd] at h
      simp only [List.head?_cons, Option.some.injEq] at h
      subst h; simpa using hd

theorem dropWhile_id_of_head {p : Char → Bool} {l : JStr}
    (h : ∀ c, l.head? = some c → p c = false) : l.dropWhile p = l := by
  cases l with
  | nil => rfl
  | cons d ds => exact List.dropWhile_cons_of_neg (by simp [h d rfl])

theorem chain'_dropWhile {R : Char → Char → Prop} {p : Char → Bool} {l : JStr}
    (h : l.Chain' R) : (l.dropWhile p).Chain' R := by
  obtain ⟨t, ht⟩ := List.dropWhile_suffix (l := l) p
  rw [← ht] at h
  exact h.right_of_append

theorem mem_dropAround {p : Char → Bool} {l : JStr} {c : Char}
    (h : c ∈ dropAround p l) : c ∈ l := by
  unfold dropAround at h
  rw [List.mem_reverse] at h
  have h2 := List.dropWhile_subset p h
  rw [List.mem_reverse] at h2
  exact List.dropWhile_subset p h2

theorem head_dropAround {p : Char → Bool} {l : JStr} {c : Char}
    (h : (dropAround p l).head? = some c) : p c = false := by
  unfold dropAround at h
  rw [List.head?_reverse] at h
  -- the last element of `dropWhile p m` (when present) is the last of `m`
  have : ∀ (m : JStr) (c : Char), (m.dropWhile p).getLast? = some c →
      m.getLast? = some c := by
    intro m
    induction m with
    | nil => intro c h'; simp [List.dropWhile] at h'
    | cons d ds ih =>
      intro c h'
      by_cases hd : p d
      · rw [List.dropWhile_cons_of_pos hd] at h'
        have := ih c h'
        cases ds with
        | nil => simp [List.dropWhile] at h'
        | cons e es => rw [List.getLast?_cons_cons]; exact this
      · rw [List.dropWhile_cons_of_neg hd] at h'
        exact h'
  have h2 := this _ _ h
  rw [List.getLast?_reverse] at h2
  exact head_dropWhile h2

theorem getLast_dropAround {p : Char → Bool} {l : JStr} {c : Char}
    (h : (dropAround p l).getLast? = some c) : p c = false := by
  unfold dropAround at h
  rw [List.getLast?_reverse] at h
  exact head_dropWhile h

theorem chain'_dropAround {p q : Char → Bool} {l : JStr}
    (h : l.Chain' (fun a c => ¬(q a = true ∧ q c = true))) :
    (dropAround p l).Chain' (fun a c => ¬(q a = true ∧ q c = true)) := by
  unfold dropAround
  have hsym : ∀ (m : JStr), m.Chain' (fun a c => ¬(q a = true ∧ q c = true)) →
      m.reverse.Chain' (fun a c => ¬(q a = true ∧ q c = true)) := by
    intro m hm
    rw [List.chain'_reverse]
    exact hm.imp (fun a b hr hc => hr ⟨hc.2, hc.1⟩)
  exact hsym _ (chain'_dropWhile (hsym _ (chain'_dropWhile h)))

theorem flatMap_id_of_mem {f : Char → List Char} :
    ∀ {l : JStr}, (∀ c ∈ l, f c = [c]) → l.flatMap f = l := by
  intro l
  induction l with
  | nil => intro _; rfl
  | cons d ds ih =>
    intro h
    rw [List.flatMap_cons, h d (List.mem_cons_self _ _),
      ih (fun c hc => h c (List.mem_cons_of_mem _ hc))]
    rfl

theorem dropAround_id {p : Char → Bool} {l : JStr}
    (hh : ∀ c, l.head? = some c → p c = false)
    (hl : ∀ c, l.getLast? = some c → p c = false) : dropAround p l = l := by
  unfold dropAround
  rw [dropWhile_id_of_head hh]
  rw [dropWhile_id_of_head (by
    intro c hc
    rw [List.head?_reverse] at hc
    exact hl c hc)]
  exact List.reverse_reverse l

/-! ### Structure of `slugify` output -/

theorem isSlugChar_not_combining {c : Char} (h : isSlugChar c = true) :
    c.toNat = 45 ∨ (48 ≤ c.toNat ∧ c.toNat ≤ 57) ∨ (97 ≤ c.toNat ∧ c.toNat ≤ 122) := by
  unfold isSlugChar isLowerAlnum at h
  simp only [Bool.or_eq_true, Bool.and_eq_true, decide_eq_true_eq, beq_iff_eq] at h
  rcases h with (⟨h1, h2⟩ | ⟨h1, h2⟩) | h1
  · right; right
    exact ⟨h1, h2⟩
  · right; left
    exact ⟨h1, h2⟩
  · left; subst h1; rfl

/-- Character-level structure of a finished slug: only `[a-z0-9-]`, no edge
hyphen, no two adjacent hyphens (stated via the stronger non-alnum chain). -/
theorem slugify_spec (nfkd lower : Char → List Char) (input : JStr) :
    (∀ c ∈ slugify nfkd lower input, isSlugChar c = true) ∧
    (∀ c, (slugify nfkd lower input).head? = some c → c ≠ '-') ∧
    (∀ c, (slugify nfkd lower input).getLast? = some c → c ≠ '-') ∧
    (slugify nfkd lower input).Chain'
      (fun a c => ¬((!(isLowerAlnum a)) = true ∧ (!(isLowerAlnum c)) = true)) := by
  unfold slugify
  set s4 := ((jsTrim (((input.flatMap nfkd)).filter
    (fun c => !(isCombiningMark c)))).flatMap lower).filter
    (fun c => !(c == apos || c == '"')) with hs4
  set s5 := squashRuns (fun c => !(isLowerAlnum c)) '-' s4 with hs5
  set s6 := dropAround (fun c => c == '-') s5 with hs6
  have hs5chars : ∀ c ∈ s5, isSlugChar c = true := by
    intro c hc
    rcases mem_squashRuns hc with h | h
    · subst h; rfl
    · unfold isSlugChar
      simp only [Bool.not_eq_false'] at h
      simp [h.2]
  have hs5chain : s5.Chain'
      (fun a c => ¬((!(isLowerAlnum a)) = true ∧ (!(isLowerAlnum c)) = true)) :=
    chain'_squashRuns s4
  have hs6chars : ∀ c ∈ s6, isSlugChar c = true :=
    fun c hc => hs5chars c (mem_dropAround hc)
  have hs6chain : s6.Chain'
      (fun a c => ¬((!(isLowerAlnum a)) = true ∧ (!(isLowerAlnum c)) = true)) :=
    chain'_dropAround hs5chain
  have hfinal : squashRuns (fun c => c == '-') '-' s6 = s6 := by
    refine squashRuns_id ?_ ?_
    · intro c _ hc
      simpa using hc
    · refine hs6chain.imp ?_
      intro a c h hc
      refine h ?_
      have ha : a = '-' := by simpa using hc.1
      have hcc : c = '-' := by simpa using hc.2
      subst ha; subst hcc
      exact ⟨rfl, rfl⟩
  rw [hfinal]
  refine ⟨hs6chars, ?_, ?_, hs6chain⟩
  · intro c hc hcontra
    have := head_dropAround hc
    subst hcontra
    simp at this
  · intro c hc hcontra
    have := getLast_dropAround hc
    subst hcontra
    simp at this

theorem slugify_fixed (nfkd lower : Char → List Char)
    (hn : ∀ c, isSlugChar c = true → nfkd c = [c])
    (hl : ∀ c, isSlugChar c = true → lower c = [c]) (t : JStr)
    (hchars : ∀ c ∈ t, isSlugChar c = true)
    (hhead : ∀ c, t.head? = some c → c ≠ '-')
    (hlast : ∀ c, t.getLast? = some c → c ≠ '-')
    (hchain : t.Chain'
      (fun a c => ¬((!(isLowerAlnum a)) = true ∧ (!(isLowerAlnum c)) = true))) :
    slugify nfkd lower t = t := by
  have hrange : ∀ c ∈ t, c.toNat = 45 ∨ (48 ≤ c.toNat ∧ c.toNat ≤ 57) ∨
      (97 ≤ c.toNat ∧ c.toNat ≤ 122) :=
    fun c hc => isSlugChar_not_combining (hchars c hc)
  have h1 : t.flatMap nfkd = t := flatMap_id_of_mem (fun c hc => hn c (hchars c hc))
  have h2 : t.filter (fun c => !(isCombiningMark c)) = t := by
    rw [List.filter_eq_self]
    intro c hc
    have h := hrange c hc
    simp only [Bool.not_eq_true']
    rw [Bool.eq_false_iff]
    intro hcontra
    unfold isCombiningMark at hcontra
    simp only [Bool.and_eq_true, decide_eq_true_eq] at hcontra
    omega
  have hnotws : ∀ c ∈ t, isJsWhitespace c = false := by
    intro c hc
    have h := hrange c hc
    rw [Bool.eq_false_iff]
    intro hcontra
    unfold isJsWhitespace at hcontra
    simp only [decide_eq_true_eq, List.mem_cons, List.not_mem_nil, or_false] at hcontra
    omega
  have h3 : jsTrim t = t := by
    unfold jsTrim
    refine dropAround_id ?_ ?_
    · intro c hc
      exact hnotws c (List.mem_of_mem_head? hc)
    · intro c hc
      exact hnotws c (List.mem_of_mem_getLast? hc)
  have h4 : t.flatMap lower = t := flatMap_id_of_mem (fun c hc => hl c (hchars c hc))
  have h5 : t.filter (fun c => !(c == apos || c == '"')) = t := by
    rw [List.filter_eq_self]
    intro c hc
    have h := hrange c hc
    simp only [Bool.not_eq_true', Bool.or_eq_false_iff, beq_eq_false_iff_ne, ne_eq]
    constructor
    · intro hcontra
      subst hcontra
      exact absurd h (by decide)
    · intro hcontra
      subst hcontra
      exact absurd h (by decide)
  have h6 : squashRuns (fun c => !(isLowerAlnum c)) '-' t = t := by
    refine squashRuns_id ?_ hchain
    intro c hc hpc
    replace hpc : isLowerAlnum c = false := by simpa using hpc
    have hsc := hchars c hc
    unfold isSlugChar at hsc
    simp only [Bool.or_eq_true, beq_iff_eq] at hsc
    rcases hsc with h' | h'
    · rw [hpc] at h'; cases h'
    · exact h'
  have h7 : dropAround (fun c => c == '-') t = t := by
    refine dropAround_id ?_ ?_
    · intro c hc
      simp only [beq_eq_false_iff_ne, ne_eq]
      exact hhead c hc
    · intro c hc
      simp only [beq_eq_false_iff_ne, ne_eq]
      exact hlast c hc
  have h8 : squashRuns (fun c => c == '-') '-' t = t := by
    refine squashRuns_id (fun c _ hc => by simpa using hc) ?_
    refine hchain.imp ?_
    intro a c h hc
    refine h ?_
    have ha : a = '-' := by simpa using hc.1
    have hcc : c = '-' := by simpa using hc.2
    constructor
    · subst ha; rfl
    · subst hcc; rfl
  have hexp : slugify nfkd lower t =
      squashRuns (fun c => c == '-') '-'
        (dropAround (fun c => c == '-')
          (squashRuns (fun c => !(isLowerAlnum c)) '-'
            (((jsTrim ((t.flatMap nfkd).filter (fun c => !(isCombiningMark c)))).flatMap
                lower).filter (fun c => !(c == apos || c == '"'))))) := rfl
  rw [hexp, h1, h2, h3, h4, h5, h6, h7, h8]

/-- C8: every `slugify` output uses only `[a-z0-9-]`, has no leading or
trailing hyphen and no two consecutive hyphens, and `slugify` is idempotent
(given that the platform NFKD/toLowerCase functions fix slug characters, which
holds of Unicode). -/
theorem slugify_wellformed_idempotent (nfkd lower : Char → List Char)
    (hn : ∀ c, isSlugChar c = true → nfkd c = [c])
    (hl : ∀ c, isSlugChar c = true → lower c = [c]) (s : JStr) :
    (∀ c ∈ slugify nfkd lower s, isSlugChar c = true) ∧
    (∀ c, (slugify nfkd lower s).head? = some c → c ≠ '-') ∧
    (∀ c, (slugify nfkd lower s).getLast? = some c → c ≠ '-') ∧
    (slugify nfkd lower s).Chain' (fun a c => ¬(a = '-' ∧ c = '-')) ∧
    slugify nfkd lower (slugify nfkd lower s) = slugify nfkd lower s := by
  obtain ⟨hchars, hhead, hlast, hchain⟩ := slugify_spec nfkd lower s
  refine ⟨hchars, hhead, hlast, ?_, ?_⟩
  · refine hchain.imp ?_
    intro a c h hc
    refine h ?_
    constructor
    · rw [hc.1]; rfl
    · rw [hc.2]; rfl
  · exact slugify_fixed nfkd lower hn hl _ hchars hhead hlast hchain

/-- Witness for the C8 theorem at concrete platform functions and input. -/
theorem slugify_wellformed_idempotent_witness :
    (∀ c ∈ slugify (fun c => [c]) (fun c => [c]) (str "  --Hello,  world!-- 42 "),
      isSlugChar c = true) ∧
    slugify (fun c => [c]) (fun c => [c])
        (slugify (fun c => [c]) (fun c => [c]) (str "  --Hello,  world!-- 42 ")) =
      slugify (fun c => [c]) (fun c => [c]) (str "  --Hello,  world!-- 42 ") := by
  have h := slugify_wellformed_idempotent (fun c => [c]) (fun c => [c])
    (fun _ _ => rfl) (fun _ _ => rfl) (str "  --Hello,  world!-- 42 ")
  exact ⟨h.1, h.2.2.2.2⟩

/-! ### Dealer records and the dealer index (`src/lib/dealers.ts`) -/

/-- The fields of a raw dealer record that the dealer-index module reads
(`title`, `address`, `city`, `placeId`, `totalScore`); the remaining payload
fields are carried through the `{...r}` spread unchanged and play no role in
any claim, so they are not modelled.  `Option` models `field?: string`. -/
structure DealerRecord where
  title : Option JStr := none
  address : Option JStr := none
  city : Option JStr := none
  placeId : Option JStr := none
  totalScore : Option Int := none
deriving DecidableEq

/-- A processed dealer: the record spread plus the three derived fields. -/
structure Dealer where
  raw : DealerRecord
  cityName : JStr
  citySlug : JStr
  dealerSlug : JStr
deriving DecidableEq

/-- `str.split(sep)` for a single-character separator. -/
def splitOnCharAux (sep : Char) : JStr → JStr → List JStr
  | [], acc => [acc.reverse]
  | c :: cs, acc =>
    if c = sep then acc.reverse :: splitOnCharAux sep cs []
    else splitOnCharAux sep cs (c :: acc)

def splitOnChar (sep : Char) (l : JStr) : List JStr := splitOnCharAux sep l []

/-- The case-insensitive `.json`-extension strip in `guessCityFromPath`. -/
def stripJsonExt (file : JStr) : JStr :=
  if 5 ≤ file.length ∧ (file.drop (file.length - 5)).map Char.toLower = str ".json"
  then file.take (file.length - 5) else file

/-- `dealers.ts` `guessCityFromPath`. -/
def guessCityFromPath (path : JStr) : Option JStr :=
  let file := ((splitOnChar '/' path).getLast?).getD []
  let base := stripJsonExt file
  if base = [] then none
  else
    let first := ((splitOnChar ',' base).head?).getD base
    let cleaned := jsTrim (squashRuns (fun c => c == '-' || c == '_') ' ' first)
    if cleaned = [] then none else some cleaned

/-- `dealers.ts` `cityNameFromRecordOrPath`. -/
def cityNameFromRecordOrPath (r : DealerRecord) (path : JStr) : JStr :=
  let fromRecord := safeText r.city
  if fromRecord ≠ [] then fromRecord
  else (guessCityFromPath path).getD (str "India")

/-- ASCII letter or digit: the class `[a-zA-Z0-9]` kept by `shortId`
(stated on code points). -/
def isAsciiAlnum (c : Char) : Bool :=
  decide (97 ≤ c.toNat ∧ c.toNat ≤ 122) || decide (65 ≤ c.toNat ∧ c.toNat ≤ 90) ||
    decide (48 ≤ c.toNat ∧ c.toNat ≤ 57)

/-- `dealers.ts` `shortId`: keep alphanumerics; if more than 8 remain, keep the
last 8; lowercase.  (`Char.toLower` is exactly JS `toLowerCase` on the ASCII
alphanumerics that survive the filter.) -/
def shortId (input : JStr) : JStr :=
  let s := (safeText (some input) (str "unknown")).filter isAsciiAlnum
  if s.length ≤ 8 then s.map Char.toLower
  else (s.drop (s.length - 8)).map Char.toLower

/-- One step of the `h = (h * 33) ^ charCode` hash of `hashId`, on the
unsigned 32-bit residue (JS `ToInt32`/`ToUint32` only reinterpret the same 32
bits, so tracking the value mod 2^32 is exact, and `h >>> 0` at the end is the
identity on this representation). -/
def hashStep (h : Nat) (code : Nat) : Nat :=
  Nat.xor (h * 33 % 4294967296) (code % 4294967296)

def base36DigitChars : JStr := str "0123456789abcdefghijklmnopqrstuvwxyz"

/-- Base-36 digits of `n`, most significant first (`fuel ≥ n` suffices). -/
def toBase36Aux : Nat → Nat → JStr
  | 0, _ => []
  | fuel + 1, n =>
    if n = 0 then []
    else toBase36Aux fuel (n / 36) ++ [base36DigitChars.getD (n % 36) '0']

/-- JS `Number.prototype.toString(36)` for a nonnegative integer. -/
def jsToString36 (n : Nat) : JStr :=
  if n = 0 then str "0" else toBase36Aux (n + 1) n

/-- `dealers.ts` `hashId`: the 5381/33 xor hash of the input, base-36,
truncated to 8 characters. -/
def hashId (input : JStr) : JStr :=
  ((jsToString36 (input.foldl (fun h c => hashStep h c.toNat) 5381))).take 8

/-- `dealers.ts` `buildDealerSlug`. -/
def buildDealerSlug (nfkd lower : Char → List Char)
    (title placeId : JStr) (address : Option JStr) : JStr :=
  let t := slugify nfkd lower (jsOrStr title (str "dealer"))
  let id := safeText (some placeId)
  if id ≠ [] then t ++ '-' :: shortId id
  else t ++ '-' :: hashId (title ++ '|' :: safeText address)

/-- The string key inserted into the `seen` set by `getAllDealers`. -/
def dedupKeyStr (citySlug placeId title address : JStr) : JStr :=
  if placeId ≠ [] then citySlug ++ ':' :: placeId
  else citySlug ++ ':' :: title ++ ':' :: address

/-- The loop body of `getAllDealers` for one record, threading the `seen` set
(modelled as the list of inserted keys) and the output array. -/
def processRecord (nfkd lower : Char → List Char) (path : JStr)
    (st : List JStr × List Dealer) (r : DealerRecord) : List JStr × List Dealer :=
  let placeId := safeText r.placeId
  let title := jsOrStr (safeText r.title) (str "Dealer")
  let cityName := cityNameFromRecordOrPath r path
  let citySlug := slugify nfkd lower (jsOrStr cityName (str "india"))
  if citySlug = [] then st
  else
    let key := dedupKeyStr citySlug placeId title (safeText r.address)
    if key ∈ st.1 then st
    else (key :: st.1,
      st.2 ++ [{ raw := r
                 cityName := cityName
                 citySlug := citySlug
                 dealerSlug := buildDealerSlug nfkd lower title placeId r.address }])

/-- `dealers.ts` `getAllDealers`, as a pure function of the loaded city JSON
modules (`path ↦ record list`, in `Object.entries` order). -/
def getAllDealersFrom (nfkd lower : Char → List Char)
    (mods : List (JStr × List DealerRecord)) : List Dealer :=
  (mods.foldl (fun st m => m.2.foldl (processRecord nfkd lower m.1) st)
    (([], []) : List JStr × List Dealer)).2

/-- The deduplication key as the claim states it: by `(citySlug, placeId)`
when the trimmed `placeId` is nonempty, else by
`(citySlug, trimmed title, trimmed address)`. -/
inductive DedupKey where
  | byPlace (citySlug placeId : JStr)
  | byTitle (citySlug title address : JStr)
deriving DecidableEq

def claimKey (d : Dealer) : DedupKey :=
  if safeText d.raw.placeId ≠ [] then
    .byPlace d.citySlug (safeText d.raw.placeId)
  else
    .byTitle d.citySlug (safeText d.raw.title) (safeText d.raw.address)

/-- The string key of a produced dealer, recomputed from its stored fields. -/
def codeKey (d : Dealer) : JStr :=
  dedupKeyStr d.citySlug (safeText d.raw.placeId)
    (jsOrStr (safeText d.raw.title) (str "Dealer")) (safeText d.raw.address)

theorem claimKey_eq_imp_codeKey_eq {d1 d2 : Dealer}
    (h : claimKey d1 = claimKey d2) : codeKey d1 = codeKey d2 := by
  unfold claimKey at h
  unfold codeKey dedupKeyStr
  by_cases h1 : safeText d1.raw.placeId ≠ []
  · by_cases h2 : safeText d2.raw.placeId ≠ []
    · rw [if_pos h1, if_pos h2] at h ⊢
      simp only [DedupKey.byPlace.injEq] at h
      rw [h.1, h.2]
    · rw [if_pos h1, if_neg h2] at h
      simp at h
  · by_cases h2 : safeText d2.raw.placeId ≠ []
    · rw [if_neg h1, if_pos h2] at h
      simp at h
    · rw [if_neg h1, if_neg h2] at h ⊢
      simp only [DedupKey.byTitle.injEq] at h
      rw [h.1, h.2.1, h.2.2]

/-- The invariant carried through the `getAllDealers` fold. -/
def DealerInv (nfkd lower : Char → List Char)
    (st : List JStr × List Dealer) : Prop :=
  (∀ d ∈ st.2, codeKey d ∈ st.1) ∧
  (st.2.map codeKey).Nodup ∧
  (∀ d ∈ st.2,
    d.citySlug ≠ [] ∧
    d.citySlug = slugify nfkd lower (jsOrStr d.cityName (str "india")) ∧
    d.dealerSlug = buildDealerSlug nfkd lower
      (jsOrStr (safeText d.raw.title) (str "Dealer"))
      (safeText d.raw.placeId) d.raw.address)

theorem foldl_preserve {σ : Type _} {α : Type _} (P : σ → Prop) (f : σ → α → σ)
    (hf : ∀ s a, P s → P (f s a)) :
    ∀ (l : List α) (s : σ), P s → P (l.foldl f s) := by
  intro l
  induction l with
  | nil => intro s hs; exact hs
  | cons a as ih => intro s hs; exact ih _ (hf s a hs)

theorem processRecord_inv (nfkd lower : Char → List Char) (path : JStr)
    (st : List JStr × List Dealer) (r : DealerRecord)
    (h : DealerInv nfkd lower st) :
    DealerInv nfkd lower (processRecord nfkd lower path st r) := by
  obtain ⟨hseen, hnodup, hshape⟩ := h
  unfold processRecord
  set placeId := safeText r.placeId with hpid
  set title := jsOrStr (safeText r.title) (str "Dealer") with htitle
  set cityName := cityNameFromRecordOrPath r path with hcn
  set citySlug := slugify nfkd lower (jsOrStr cityName (str "india")) with hcs
  by_cases hempty : citySlug = []
  · rw [if_pos hempty]; exact ⟨hseen, hnodup, hshape⟩
  · rw [if_neg hempty]
    set key := dedupKeyStr citySlug placeId title (safeText r.address) with hkey
    by_cases hmem : key ∈ st.1
    · rw [if_pos hmem]; exact ⟨hseen, hnodup, hshape⟩
    · rw [if_neg hmem]
      set dNew : Dealer := { raw := r
                             cityName := cityName
                             citySlug := citySlug
                             dealerSlug := buildDealerSlug nfkd lower title placeId
                               r.address } with hdnew
      have hkeyeq : codeKey dNew = key := by
        simp only [hdnew, codeKey]
      refine ⟨?_, ?_, ?_⟩
      · intro d hd
        rcases List.mem_append.mp hd with hd | hd
        · exact List.mem_cons_of_mem _ (hseen d hd)
        · rw [List.mem_singleton] at hd
          subst hd
          rw [hkeyeq]
          exact List.mem_cons_self _ _
      · rw [List.map_append]
        simp only [List.map_cons, List.map_nil]
        rw [List.nodup_append]
        refine ⟨hnodup, List.nodup_singleton _, ?_⟩
        intro x hx hx'
        rw [List.mem_singleton] at hx'
        subst hx'
        rw [hkeyeq] at hx
        rcases List.mem_map.mp hx with ⟨d, hd, hcd⟩
        exact hmem (hcd ▸ hseen d hd)
      · intro d hd
        rcases List.mem_append.mp hd with hd | hd
        · exact hshape d hd
        · rw [List.mem_singleton] at hd
          subst hd
          refine ⟨by simpa only [hdnew] using hempty, ?_, ?_⟩
          · simp only [hdnew]
          · simp only [hdnew]

theorem getAllDealersFrom_inv (nfkd lower : Char → List Char)
    (mods : List (JStr × List DealerRecord)) :
    DealerInv nfkd lower
      (mods.foldl (fun st m => m.2.foldl (processRecord nfkd lower m.1) st)
        (([], []) : List JStr × List Dealer)) := by
  refine foldl_preserve (DealerInv nfkd lower) _ ?_ mods _ ?_
  · intro st m hst
    exact foldl_preserve (DealerInv nfkd lower) _
      (fun st' r hst' => processRecord_inv nfkd lower m.1 st' r hst') m.2 st hst
  · show DealerInv nfkd lower ([], [])
    unfold DealerInv
    refine ⟨?_, ?_, ?_⟩
    · intro d hd; cases hd
    · exact List.nodup_nil
    · intro d hd; cases hd

/-- C1: the dealer list produced by `getAllDealers` contains no two dealers
with the same deduplication key — `(citySlug, placeId)` when the trimmed
`placeId` is nonempty, else `(citySlug, trimmed title, trimmed address)` —
and every produced dealer carries a nonempty derived city slug (records whose
derived slug is empty are dropped). -/
theorem getAllDealers_dedup (nfkd lower : Char → List Char)
    (mods : List (JStr × List DealerRecord)) :
    (getAllDealersFrom nfkd lower mods).Pairwise
      (fun d1 d2 => claimKey d1 ≠ claimKey d2) ∧
    (∀ d ∈ getAllDealersFrom nfkd lower mods,
      d.citySlug ≠ [] ∧
      d.citySlug = slugify nfkd lower (jsOrStr d.cityName (str "india"))) := by
  obtain ⟨hseen, hnodup, hshape⟩ := getAllDealersFrom_inv nfkd lower mods
  constructor
  · have hpw : (getAllDealersFrom nfkd lower mods).Pairwise
        (fun d1 d2 => codeKey d1 ≠ codeKey d2) := by
      have := (List.pairwise_map (f := codeKey)).mp hnodup
      exact this
    exact hpw.imp (fun h hck => h (claimKey_eq_imp_codeKey_eq hck))
  · intro d hd
    exact ⟨(hshape d hd).1, (hshape d hd).2.1⟩

/-! ### Grouping dealers by city, `findDealer` (C3) -/

/-- The comparator of `getDealersByCitySlug`: score descending, ties by
`localeCompare` of the trimmed titles.  `lcmp` is the platform
`String.prototype.localeCompare`. -/
def dealerCmp (lcmp : JStr → JStr → Int) (a b : Dealer) : Int :=
  let ar : Int := match a.raw.totalScore with | some n => n | none => -1
  let br : Int := match b.raw.totalScore with | some n => n | none => -1
  if br - ar ≠ 0 then br - ar
  else lcmp (safeText a.raw.title) (safeText b.raw.title)

/-- JS `Array.prototype.sort` with a consistent comparator: ECMAScript
specifies a stable sort that, for a consistent comparator, sorts by
`comparator ≤ 0`; any stable sort models it, and we use insertion sort
(structural, so concrete instances evaluate). -/
def sortDealers (lcmp : JStr → JStr → Int) (l : List Dealer) : List Dealer :=
  l.insertionSort (fun a b => dealerCmp lcmp a b ≤ 0)

/-- `Map.prototype.get` on an insertion-ordered association list. -/
def mapGet {β : Type _} (m : List (JStr × β)) (k : JStr) : Option β :=
  match m with
  | [] => none
  | (ek, ev) :: es => if k = ek then some ev else mapGet es k

/-- `map.get(k) ? arr.push(d) : map.set(k, [d])` on an insertion-ordered
association list. -/
def assocUpd (m : List (JStr × List Dealer)) (k : JStr) (d : Dealer) :
    List (JStr × List Dealer) :=
  if (mapGet m k).isSome then
    m.map (fun e => if e.1 = k then (e.1, e.2 ++ [d]) else e)
  else m ++ [(k, [d])]

/-- The `_dealersByCity` map built by `getDealersByCitySlug`: group the
dealers by slug, then sort each bucket. -/
def computeByCity (lcmp : JStr → JStr → Int) (dealers : List Dealer) :
    List (JStr × List Dealer) :=
  let m := dealers.foldl (fun m d => assocUpd m d.citySlug d) []
  m.map (fun e => (e.1, sortDealers lcmp e.2))

/-- `dealers.ts` `getDealersByCitySlug` (the `_dealersByCity` build plus the
final lookup with `?? []`). -/
def getDealersByCitySlugFrom (nfkd lower : Char → List Char)
    (lcmp : JStr → JStr → Int) (mods : List (JStr × List DealerRecord))
    (citySlug : JStr) : List Dealer :=
  (mapGet (computeByCity lcmp (getAllDealersFrom nfkd lower mods))
    citySlug).getD []

/-- `dealers.ts` `findDealer`. -/
def findDealerFrom (nfkd lower : Char → List Char) (lcmp : JStr → JStr → Int)
    (mods : List (JStr × List DealerRecord)) (citySlug dealerSlug : JStr) :
    Option Dealer :=
  (getDealersByCitySlugFrom nfkd lower lcmp mods citySlug).find?
    (fun d => decide (d.dealerSlug = dealerSlug))

theorem mapGet_map_upd (k k' : JStr) (d : Dealer) (m : List (JStr × List Dealer)) :
    mapGet (m.map (fun e => if e.1 = k then (e.1, e.2 ++ [d]) else e)) k'
      = if k' = k then (mapGet m k').map (fun v => v ++ [d]) else mapGet m k' := by
  induction m with
  | nil => by_cases h : k' = k <;> simp [mapGet, h]
  | cons e es ih =>
    obtain ⟨ek, ev⟩ := e
    simp only [List.map_cons]
    by_cases hek : ek = k
    · rw [if_pos hek]
      by_cases hk' : k' = ek
      · rw [mapGet, if_pos hk', mapGet, if_pos hk', if_pos (hk'.trans hek)]
        rfl
      · rw [mapGet, if_neg hk', mapGet, if_neg hk', ih]
    · rw [if_neg hek]
      by_cases hk' : k' = ek
      · rw [mapGet, if_pos hk', mapGet, if_pos hk',
          if_neg (fun hc => hek ((hk'.symm.trans hc)))]
      · rw [mapGet, if_neg hk', mapGet, if_neg hk', ih]

theorem mapGet_append_single (k k' : JStr) (v : List Dealer) (h : k' ≠ k)
    (m : List (JStr × List Dealer)) :
    mapGet (m ++ [(k, v)]) k' = mapGet m k' := by
  induction m with
  | nil => simp [mapGet, h]
  | cons e es ih =>
    obtain ⟨ek, ev⟩ := e
    rw [List.cons_append, mapGet, mapGet]
    by_cases hk' : k' = ek
    · rw [if_pos hk', if_pos hk']
    · rw [if_neg hk', if_neg hk', ih]

theorem mapGet_append_single_self (k : JStr) (v : List Dealer)
    (m : List (JStr × List Dealer)) (hm : mapGet m k = none) :
    mapGet (m ++ [(k, v)]) k = some v := by
  induction m with
  | nil => simp [mapGet]
  | cons e es ih =>
    obtain ⟨ek, ev⟩ := e
    rw [mapGet] at hm
    rw [List.cons_append, mapGet]
    by_cases hk : k = ek
    · rw [if_pos hk] at hm
      cases hm
    · rw [if_neg hk] at hm
      rw [if_neg hk]
      exact ih hm

theorem mapGet_assocUpd_self (m : List (JStr × List Dealer)) (k : JStr)
    (d : Dealer) :
    mapGet (assocUpd m k d) k = some (((mapGet m k).getD []) ++ [d]) := by
  unfold assocUpd
  by_cases hsome : (mapGet m k).isSome
  · rw [if_pos hsome, mapGet_map_upd k k d m, if_pos rfl]
    obtain ⟨v, hv⟩ := Option.isSome_iff_exists.mp hsome
    rw [hv]
    rfl
  · rw [if_neg hsome]
    have hnone : mapGet m k = none := by
      cases h : mapGet m k with
      | none => rfl
      | some v => rw [h] at hsome; simp at hsome
    rw [mapGet_append_single_self k [d] m hnone, hnone]
    rfl

theorem mapGet_assocUpd_other (m : List (JStr × List Dealer)) (k k' : JStr)
    (d : Dealer) (h : k' ≠ k) :
    mapGet (assocUpd m k d) k' = mapGet m k' := by
  unfold assocUpd
  by_cases hsome : (mapGet m k).isSome
  · rw [if_pos hsome, mapGet_map_upd, if_neg h]
  · rw [if_neg hsome]
    exact mapGet_append_single k k' [d] h m

/-- The `_dealersByCity` map sends each slug to the dealers with that slug,
in list order (pre-sort). -/
theorem mapGet_groupFold (ds : List Dealer) (k : JStr) :
    mapGet (ds.foldl (fun m d => assocUpd m d.citySlug d) []) k
      = (if ds.filter (fun d => decide (d.citySlug = k)) = [] then none
         else some (ds.filter (fun d => decide (d.citySlug = k)))) := by
  induction ds using List.reverseRecOn with
  | nil => simp [mapGet]
  | append_singleton ds d ih =>
    rw [List.foldl_append, List.foldl_cons, List.foldl_nil, List.filter_append]
    by_cases hk : d.citySlug = k
    · rw [hk, mapGet_assocUpd_self, ih]
      have hone : List.filter (fun d => decide (d.citySlug = k)) [d] = [d] := by
        simp [List.filter, hk]
      rw [hone]
      by_cases hf : ds.filter (fun d => decide (d.citySlug = k)) = []
      · rw [if_pos hf, hf]
        simp
      · rw [if_neg hf, if_neg (by simp [hf])]
        rfl
    · rw [mapGet_assocUpd_other _ _ _ _ (fun hcontra => hk hcontra.symm), ih]
      have hnone : List.filter (fun d => decide (d.citySlug = k)) [d] = [] := by
        simp [List.filter, hk]
      rw [hnone, List.append_nil]

theorem mapGet_mapValues (f : List Dealer → List Dealer)
    (m : List (JStr × List Dealer)) (k : JStr) :
    mapGet (m.map (fun e => (e.1, f e.2))) k = (mapGet m k).map f := by
  induction m with
  | nil => simp [mapGet]
  | cons e es ih =>
    obtain ⟨ek, ev⟩ := e
    simp only [List.map_cons]
    rw [mapGet, mapGet]
    by_cases hk : k = ek
    · rw [if_pos hk, if_pos hk]
      rfl
    · rw [if_neg hk, if_neg hk, ih]

/-- Membership in a city page is membership in the full dealer list with the
matching slug (the per-city sort only permutes). -/
theorem mem_getDealersByCitySlugFrom {nfkd lower : Char → List Char}
    {lcmp : JStr → JStr → Int} {mods : List (JStr × List DealerRecord)}
    {cs : JStr} {d : Dealer} :
    d ∈ getDealersByCitySlugFrom nfkd lower lcmp mods cs ↔
      d ∈ getAllDealersFrom nfkd lower mods ∧ d.citySlug = cs := by
  simp only [getDealersByCitySlugFrom, computeByCity]
  rw [mapGet_mapValues, mapGet_groupFold]
  by_cases hf : (getAllDealersFrom nfkd lower mods).filter
      (fun d => decide (d.citySlug = cs)) = []
  · rw [if_pos hf]
    show d ∈ ([] : List Dealer) ↔ _
    constructor
    · intro hmem
      cases hmem
    · intro hmem
      have hd : d ∈ (getAllDealersFrom nfkd lower mods).filter
          (fun d => decide (d.citySlug = cs)) := by
        rw [List.mem_filter]
        exact ⟨hmem.1, by simpa using hmem.2⟩
      rw [hf] at hd
      cases hd
  · rw [if_neg hf]
    show d ∈ sortDealers lcmp ((getAllDealersFrom nfkd lower mods).filter
      (fun d => decide (d.citySlug = cs))) ↔ _
    unfold sortDealers
    rw [List.mem_insertionSort, List.mem_filter]
    simp

/-! ### Structure of dealer slugs (C3) -/

theorem toNat_ofNat_small {n : Nat} (h : n < 55296) : (Char.ofNat n).toNat = n := by
  rw [Char.ofNat, dif_pos (Or.inl h)]
  rfl

theorem toLower_ne_dash {c : Char} (h : isAsciiAlnum c = true) :
    Char.toLower c ≠ '-' := by
  unfold isAsciiAlnum at h
  simp only [Bool.or_eq_true, decide_eq_true_eq] at h
  simp only [Char.toLower]
  by_cases hr : c.toNat ≥ 65 ∧ c.toNat ≤ 90
  · rw [if_pos hr]
    intro hc
    have hn := congrArg Char.toNat hc
    rw [toNat_ofNat_small (by omega)] at hn
    have h45 : ('-').toNat = 45 := rfl
    rw [h45] at hn
    omega
  · rw [if_neg hr]
    intro hc
    have hn := congrArg Char.toNat hc
    have h45 : ('-').toNat = 45 := rfl
    rw [h45] at hn
    omega

theorem shortId_no_dash (s : JStr) : '-' ∉ shortId s := by
  simp only [shortId]
  intro hmem
  by_cases hlen : ((safeText (some s) (str "unknown")).filter isAsciiAlnum).length ≤ 8
  · rw [if_pos hlen] at hmem
    rcases List.mem_map.mp hmem with ⟨c, hc, heq⟩
    exact toLower_ne_dash (List.of_mem_filter hc) heq
  · rw [if_neg hlen] at hmem
    rcases List.mem_map.mp hmem with ⟨c, hc, heq⟩
    exact toLower_ne_dash (List.of_mem_filter (List.drop_subset _ _ hc)) heq

theorem getD_mem_or (l : JStr) (n : Nat) (d : Char) :
    l.getD n d ∈ l ∨ l.getD n d = d := by
  induction l generalizing n with
  | nil => right; simp [List.getD]
  | cons c cs ih =>
    cases n with
    | zero => left; simp
    | succ m =>
      rw [List.getD_cons_succ]
      rcases ih m with h | h
      · exact Or.inl (List.mem_cons_of_mem _ h)
      · exact Or.inr h

theorem base36Aux_no_dash : ∀ (fuel n : Nat), '-' ∉ toBase36Aux fuel n := by
  intro fuel
  induction fuel with
  | zero => intro n h; cases h
  | succ f ih =>
    intro n h
    unfold toBase36Aux at h
    by_cases hn : n = 0
    · rw [if_pos hn] at h; cases h
    · rw [if_neg hn] at h
      rcases List.mem_append.mp h with h | h
      · exact ih _ h
      · rw [List.mem_singleton] at h
        rcases getD_mem_or base36DigitChars (n % 36) '0' with hm | hm
        · rw [← h] at hm
          exact absurd hm (by decide)
        · rw [hm] at h
          exact absurd h (by decide)

theorem hashId_no_dash (s : JStr) : '-' ∉ hashId s := by
  unfold hashId
  intro hmem
  have hmem' := List.take_subset _ _ hmem
  unfold jsToString36 at hmem'
  by_cases h0 : (s.foldl (fun h c => hashStep h c.toNat) 5381) = 0
  · rw [if_pos h0] at hmem'
    exact absurd hmem' (by decide)
  · rw [if_neg h0] at hmem'
    exact base36Aux_no_dash _ _ hmem'

/-- Splitting at the first separator: if neither prefix part contains `'-'`,
the decomposition `a ++ '-' :: b` is unique. -/
theorem eq_of_append_dash : ∀ {a1 a2 b1 b2 : JStr},
    a1 ++ '-' :: b1 = a2 ++ '-' :: b2 → '-' ∉ a1 → '-' ∉ a2 →
    a1 = a2 ∧ b1 = b2 := by
  intro a1
  induction a1 with
  | nil =>
    intro a2 b1 b2 h h1 h2
    cases a2 with
    | nil => simpa using h
    | cons c cs =>
      rw [List.nil_append, List.cons_append] at h
      injection h with hh ht
      exact absurd (hh ▸ List.mem_cons_self c cs) h2
  | cons c cs ih =>
    intro a2 b1 b2 h h1 h2
    cases a2 with
    | nil =>
      rw [List.cons_append, List.nil_append] at h
      injection h with hh ht
      exact absurd (hh ▸ List.mem_cons_self c cs) h1
    | cons c2 cs2 =>
      rw [List.cons_append, List.cons_append] at h
      injection h with hh ht
      obtain ⟨hA, hB⟩ := ih ht (fun hm => h1 (List.mem_cons_of_mem _ hm))
        (fun hm => h2 (List.mem_cons_of_mem _ hm))
      exact ⟨by rw [hh, hA], hB⟩

/-- Splitting at the last separator: if neither suffix part contains `'-'`,
the decomposition `t ++ '-' :: id` is unique. -/
theorem append_dash_inj {t1 id1 t2 id2 : JStr}
    (h : t1 ++ '-' :: id1 = t2 ++ '-' :: id2)
    (h1 : '-' ∉ id1) (h2 : '-' ∉ id2) : t1 = t2 ∧ id1 = id2 := by
  have hrev := congrArg List.reverse h
  rw [List.reverse_append, List.reverse_cons, List.reverse_append,
    List.reverse_cons, List.append_assoc, List.append_assoc,
    List.singleton_append, List.singleton_append] at hrev
  obtain ⟨hA, hB⟩ := eq_of_append_dash hrev (by simpa using h1) (by simpa using h2)
  constructor
  · have := congrArg List.reverse hB
    simpa using this
  · have := congrArg List.reverse hA
    simpa using this

/-- The id suffix appended by `buildDealerSlug` (after the final hyphen). -/
def buildIdPart (title placeId : JStr) (address : Option JStr) : JStr :=
  if safeText (some placeId) ≠ [] then shortId (safeText (some placeId))
  else hashId (title ++ '|' :: safeText address)

theorem buildDealerSlug_eq (nfkd lower : Char → List Char)
    (title placeId : JStr) (addr : Option JStr) :
    buildDealerSlug nfkd lower title placeId addr
      = slugify nfkd lower (jsOrStr title (str "dealer"))
        ++ '-' :: buildIdPart title placeId addr := by
  simp only [buildDealerSlug, buildIdPart]
  by_cases h : safeText (some placeId) ≠ []
  · rw [if_pos h, if_pos h]
  · rw [if_neg h, if_neg h]

theorem buildIdPart_no_dash (title placeId : JStr) (addr : Option JStr) :
    '-' ∉ buildIdPart title placeId addr := by
  unfold buildIdPart
  by_cases h : safeText (some placeId) ≠ []
  · rw [if_pos h]; exact shortId_no_dash _
  · rw [if_neg h]; exact hashId_no_dash _

/-- The slugified-title component of a produced dealer's slug. -/
def titlePart (nfkd lower : Char → List Char) (d : Dealer) : JStr :=
  slugify nfkd lower
    (jsOrStr (jsOrStr (safeText d.raw.title) (str "Dealer")) (str "dealer"))

/-- The id-suffix component of a produced dealer's slug. -/
def idPart (d : Dealer) : JStr :=
  buildIdPart (jsOrStr (safeText d.raw.title) (str "Dealer"))
    (safeText d.raw.placeId) d.raw.address

theorem dealerSlug_decomp {nfkd lower : Char → List Char}
    {mods : List (JStr × List DealerRecord)} {d : Dealer}
    (hmem : d ∈ getAllDealersFrom nfkd lower mods) :
    d.dealerSlug = titlePart nfkd lower d ++ '-' :: idPart d := by
  have hshape := (getAllDealersFrom_inv nfkd lower mods).2.2 d hmem
  rw [hshape.2.2, buildDealerSlug_eq]
  rfl

/-- C3 (amended): a dealer's slug uniquely determines its two derived
components — the slugified title and the id suffix (`shortId` of the trimmed
`placeId` when nonempty, else the base-36 hash of `title|address`) — so two
dealers of the same city page share a `dealerSlug` only when both components
coincide (which the code does not rule out); and `findDealer` returns the
first dealer of the city page whose `dealerSlug` matches, hence at most one
dealer. -/
theorem dealerSlug_determines_parts (nfkd lower : Char → List Char)
    (lcmp : JStr → JStr → Int) (mods : List (JStr × List DealerRecord))
    (cs : JStr) :
    (∀ d1 ∈ getDealersByCitySlugFrom nfkd lower lcmp mods cs,
      ∀ d2 ∈ getDealersByCitySlugFrom nfkd lower lcmp mods cs,
        d1.dealerSlug = d2.dealerSlug →
          titlePart nfkd lower d1 = titlePart nfkd lower d2 ∧
            idPart d1 = idPart d2) ∧
    (∀ (s : JStr) (d : Dealer),
      findDealerFrom nfkd lower lcmp mods cs s = some d →
        d ∈ getDealersByCitySlugFrom nfkd lower lcmp mods cs ∧
          d.dealerSlug = s) := by
  constructor
  · intro d1 h1 d2 h2 hslug
    have hm1 := (mem_getDealersByCitySlugFrom.mp h1).1
    have hm2 := (mem_getDealersByCitySlugFrom.mp h2).1
    have hd1 := dealerSlug_decomp hm1
    have hd2 := dealerSlug_decomp hm2
    rw [hd1, hd2] at hslug
    exact append_dash_inj hslug (buildIdPart_no_dash _ _ _) (buildIdPart_no_dash _ _ _)
  · intro s d hfind
    unfold findDealerFrom at hfind
    refine ⟨List.mem_of_find?_eq_some hfind, ?_⟩
    have := List.find?_some hfind
    simpa using this

/-! Concrete input on which distinct dealers collide on `dealerSlug`:
two records in the same city file with the same title and different
`placeId`s that agree on their last 8 alphanumeric characters. -/

def cxRec1 : DealerRecord :=
  { title := some (str "Prime Cars"), placeId := some (str "A12345678") }

def cxRec2 : DealerRecord :=
  { title := some (str "Prime Cars"), placeId := some (str "B12345678") }

def cxMods : List (JStr × List DealerRecord) :=
  [(str "../data/cities/mumbai.json", [cxRec1, cxRec2])]

/-- C3 counterexample: on `cxMods` the Mumbai city page holds two distinct
dealers (different `placeId`s) with the identical `dealerSlug`
`prime-cars-12345678`, so dealers are not uniquely keyed by their slug. -/
theorem dealerSlug_not_unique_counterexample :
    ¬ ((getDealersByCitySlugFrom (fun c => [c]) (fun c => [Char.toLower c])
        (fun _ _ => 0) cxMods (str "mumbai")).Pairwise
          (fun d1 d2 => d1.dealerSlug ≠ d2.dealerSlug)) ∧
    ((getDealersByCitySlugFrom (fun c => [c]) (fun c => [Char.toLower c])
        (fun _ _ => 0) cxMods (str "mumbai")).map (fun d => d.dealerSlug)
      = [str "prime-cars-12345678", str "prime-cars-12345678"]) ∧
    (getDealersByCitySlugFrom (fun c => [c]) (fun c => [Char.toLower c])
        (fun _ _ => 0) cxMods (str "mumbai")).Nodup := by
  decide

/-- The dealer produced from `cxRec1`. -/
def cxDealer1 : Dealer :=
  { raw := cxRec1
    cityName := str "mumbai"
    citySlug := str "mumbai"
    dealerSlug := str "prime-cars-12345678" }

/-- Witness for the amended C3 theorem at a concrete input. -/
theorem dealerSlug_determines_parts_witness :
    cxDealer1 ∈ getDealersByCitySlugFrom (fun c => [c]) (fun c => [Char.toLower c])
        (fun _ _ => 0) cxMods (str "mumbai") ∧
    idPart cxDealer1 = idPart cxDealer1 ∧
    findDealerFrom (fun c => [c]) (fun c => [Char.toLower c]) (fun _ _ => 0)
        cxMods (str "mumbai") (str "prime-cars-12345678") = some cxDealer1 ∧
    cxDealer1.dealerSlug = str "prime-cars-12345678" := by
  have h := dealerSlug_determines_parts (fun c => [c]) (fun c => [Char.toLower c])
    (fun _ _ => 0) cxMods (str "mumbai")
  have hmem : cxDealer1 ∈ getDealersByCitySlugFrom (fun c => [c])
      (fun c => [Char.toLower c]) (fun _ _ => 0) cxMods (str "mumbai") := by decide
  have hfind : findDealerFrom (fun c => [c]) (fun c => [Char.toLower c])
      (fun _ _ => 0) cxMods (str "mumbai") (str "prime-cars-12345678")
        = some cxDealer1 := by decide
  exact ⟨hmem, (h.1 cxDealer1 hmem cxDealer1 hmem rfl).2, hfind,
    (h.2 _ _ hfind).2⟩

/-! ### The city index `getCities` (C4) -/

/-- One entry of the city index. -/
structure CityIndex where
  cityName : JStr
  citySlug : JStr
  count : Nat
deriving DecidableEq

/-- The `byCity` Map update of `getCities`: first sight inserts
`{cityName, count: 1}` at the end, later sights bump the count in place. -/
def bumpCity (m : List (JStr × JStr × Nat)) (d : Dealer) :
    List (JStr × JStr × Nat) :=
  if (mapGet m d.citySlug).isSome then
    m.map (fun e => if e.1 = d.citySlug then (e.1, e.2.1, e.2.2 + 1) else e)
  else m ++ [(d.citySlug, d.cityName, 1)]

/-- The `getCities` comparator: count descending, ties by `localeCompare` of
the city names (`lcmp` is the platform `localeCompare`). -/
def cityCmp (lcmp : JStr → JStr → Int) (a b : CityIndex) : Int :=
  if (b.count : Int) - a.count ≠ 0 then (b.count : Int) - a.count
  else lcmp a.cityName b.cityName

/-- The body of `getCities`: group, shape, sort. -/
def computeCities (lcmp : JStr → JStr → Int) (dealers : List Dealer) :
    List CityIndex :=
  let byCity := dealers.foldl bumpCity []
  (byCity.map (fun e => { citySlug := e.1
                          cityName := e.2.1
                          count := e.2.2 })).insertionSort
    (fun a b => cityCmp lcmp a b ≤ 0)

/-- `dealers.ts` `getCities` as a pure function of the loaded modules. -/
def getCitiesFrom (nfkd lower : Char → List Char) (lcmp : JStr → JStr → Int)
    (mods : List (JStr × List DealerRecord)) : List CityIndex :=
  computeCities lcmp (getAllDealersFrom nfkd lower mods)

theorem mapGet_map_modify {β : Type _} (k k' : JStr) (f : β → β)
    (m : List (JStr × β)) :
    mapGet (m.map (fun e => if e.1 = k then (e.1, f e.2) else e)) k'
      = if k' = k then (mapGet m k').map f else mapGet m k' := by
  induction m with
  | nil => by_cases h : k' = k <;> simp [mapGet, h]
  | cons e es ih =>
    obtain ⟨ek, ev⟩ := e
    simp only [List.map_cons]
    by_cases hek : ek = k
    · rw [if_pos hek]
      by_cases hk' : k' = ek
      · rw [mapGet, if_pos hk', mapGet, if_pos hk', if_pos (hk'.trans hek)]
        rfl
      · rw [mapGet, if_neg hk', mapGet, if_neg hk', ih]
    · rw [if_neg hek]
      by_cases hk' : k' = ek
      · rw [mapGet, if_pos hk', mapGet, if_pos hk',
          if_neg (fun hc => hek ((hk'.symm.trans hc)))]
      · rw [mapGet, if_neg hk', mapGet, if_neg hk', ih]

theorem mapGet_append_one {β : Type _} (k k' : JStr) (v : β) (h : k' ≠ k)
    (m : List (JStr × β)) :
    mapGet (m ++ [(k, v)]) k' = mapGet m k' := by
  induction m with
  | nil => simp [mapGet, h]
  | cons e es ih =>
    obtain ⟨ek, ev⟩ := e
    rw [List.cons_append, mapGet, mapGet]
    by_cases hk' : k' = ek
    · rw [if_pos hk', if_pos hk']
    · rw [if_neg hk', if_neg hk', ih]

theorem mapGet_append_one_self {β : Type _} (k : JStr) (v : β)
    (m : List (JStr × β)) (hm : mapGet m k = none) :
    mapGet (m ++ [(k, v)]) k = some v := by
  induction m with
  | nil => simp [mapGet]
  | cons e es ih =>
    obtain ⟨ek, ev⟩ := e
    rw [mapGet] at hm
    rw [List.cons_append, mapGet]
    by_cases hk : k = ek
    · rw [if_pos hk] at hm
      cases hm
    · rw [if_neg hk] at hm
      rw [if_neg hk]
      exact ih hm

theorem mapGet_eq_none_iff {β : Type _} (m : List (JStr × β)) (k : JStr) :
    mapGet m k = none ↔ k ∉ m.map (fun e => e.1) := by
  induction m with
  | nil => simp [mapGet]
  | cons e es ih =>
    obtain ⟨ek, ev⟩ := e
    rw [mapGet]
    by_cases hk : k = ek
    · rw [if_pos hk]
      refine iff_of_false (by simp) ?_
      intro hc
      apply hc
      rw [List.map_cons]
      exact List.mem_cons.mpr (Or.inl hk)
    · rw [if_neg hk]
      simp only [List.map_cons, List.mem_cons, hk, false_or]
      exact ih

theorem mapGet_of_mem_nodup {β : Type _} {m : List (JStr × β)} {k : JStr}
    {v : β} (hnd : (m.map (fun e => e.1)).Nodup) (hmem : (k, v) ∈ m) :
    mapGet m k = some v := by
  induction m with
  | nil => cases hmem
  | cons e es ih =>
    obtain ⟨ek, ev⟩ := e
    rw [List.map_cons, List.nodup_cons] at hnd
    rcases List.mem_cons.mp hmem with h | h
    · injection h with h1 h2
      rw [mapGet, if_pos h1, h2]
    · rw [mapGet]
      by_cases hk : k = ek
      · exfalso
        apply hnd.1
        rw [← hk]
        exact List.mem_map.mpr ⟨(k, v), h, rfl⟩
      · rw [if_neg hk]
        exact ih hnd.2 h

theorem mapGet_bumpCity_self (m : List (JStr × JStr × Nat)) (d : Dealer) :
    mapGet (bumpCity m d) d.citySlug
      = some (match mapGet m d.citySlug with
              | none => (d.cityName, 1)
              | some p => (p.1, p.2 + 1)) := by
  unfold bumpCity
  by_cases hsome : (mapGet m d.citySlug).isSome
  · rw [if_pos hsome]
    obtain ⟨v, hv⟩ := Option.isSome_iff_exists.mp hsome
    have := mapGet_map_modify d.citySlug d.citySlug
      (fun p : JStr × Nat => (p.1, p.2 + 1)) m
    rw [if_pos rfl] at this
    rw [this, hv]
    rfl
  · rw [if_neg hsome]
    have hnone : mapGet m d.citySlug = none := by
      cases h : mapGet m d.citySlug with
      | none => rfl
      | some v => rw [h] at hsome; simp at hsome
    rw [mapGet_append_one_self _ _ _ hnone, hnone]

theorem mapGet_bumpCity_other (m : List (JStr × JStr × Nat)) (d : Dealer)
    (k : JStr) (h : k ≠ d.citySlug) :
    mapGet (bumpCity m d) k = mapGet m k := by
  unfold bumpCity
  by_cases hsome : (mapGet m d.citySlug).isSome
  · rw [if_pos hsome]
    have := mapGet_map_modify d.citySlug k
      (fun p : JStr × Nat => (p.1, p.2 + 1)) m
    rw [if_neg h] at this
    exact this
  · rw [if_neg hsome]
    exact mapGet_append_one _ _ _ h m

/-- The `byCity` fold sends each slug to the city name of the first dealer
with that slug paired with the number of dealers with that slug. -/
theorem cityFold_get (ds : List Dealer) (k : JStr) :
    mapGet (ds.foldl bumpCity []) k
      = (ds.find? (fun d => decide (d.citySlug = k))).map
          (fun d0 => (d0.cityName, ds.countP (fun d => decide (d.citySlug = k)))) := by
  induction ds using List.reverseRecOn with
  | nil => simp [mapGet]
  | append_singleton ds d ih =>
    rw [List.foldl_append, List.foldl_cons, List.foldl_nil]
    by_cases hk : d.citySlug = k
    · rw [← hk] at ih ⊢
      rw [mapGet_bumpCity_self, ih]
      have hcnt : (ds ++ [d]).countP (fun x => decide (x.citySlug = d.citySlug))
          = ds.countP (fun x => decide (x.citySlug = d.citySlug)) + 1 := by
        rw [List.countP_append]
        simp [List.countP_cons]
      cases hf : ds.find? (fun x => decide (x.citySlug = d.citySlug)) with
      | none =>
        have hzero : ds.countP (fun x => decide (x.citySlug = d.citySlug)) = 0 := by
          rw [List.countP_eq_zero]
          intro x hx
          have := List.find?_eq_none.mp hf x hx
          simpa using this
        have hfind : (ds ++ [d]).find? (fun x => decide (x.citySlug = d.citySlug))
            = some d := by
          rw [List.find?_append, hf]
          simp
        rw [hfind, hcnt, hzero]
        simp
      | some d0 =>
        have hfind : (ds ++ [d]).find? (fun x => decide (x.citySlug = d.citySlug))
            = some d0 := by
          rw [List.find?_append, hf]
          rfl
        rw [hfind, hcnt]
        simp
    · rw [mapGet_bumpCity_other _ _ _ (fun hc => hk hc.symm), ih]
      have hcnt : (ds ++ [d]).countP (fun x => decide (x.citySlug = k))
          = ds.countP (fun x => decide (x.citySlug = k)) := by
        rw [List.countP_append]
        simp [List.countP_cons, hk]
      have hfind : (ds ++ [d]).find? (fun x => decide (x.citySlug = k))
          = ds.find? (fun x => decide (x.citySlug = k)) := by
        rw [List.find?_append]
        cases hf : ds.find? (fun x => decide (x.citySlug = k)) with
        | none => simp [List.find?, hk]
        | some d0 => rfl
      rw [hfind, hcnt]

/-- Keys of the `byCity` fold are distinct, and the counts sum to the number
of dealers processed. -/
theorem cityFold_nodup_sum (ds : List Dealer) :
    (((ds.foldl bumpCity []).map (fun e => e.1)).Nodup) ∧
    (((ds.foldl bumpCity []).map (fun e => e.2.2)).sum = ds.length) := by
  induction ds using List.reverseRecOn with
  | nil => simp
  | append_singleton ds d ih =>
    rw [List.foldl_append, List.foldl_cons, List.foldl_nil, bumpCity]
    by_cases hsome : (mapGet (ds.foldl bumpCity []) d.citySlug).isSome
    · rw [if_pos hsome]
      have hkeys : ((ds.foldl bumpCity []).map
            (fun e => if e.1 = d.citySlug then (e.1, e.2.1, e.2.2 + 1) else e)).map
            (fun e => e.1)
          = (ds.foldl bumpCity []).map (fun e => e.1) := by
        rw [List.map_map]
        apply List.map_congr_left
        intro e _
        by_cases he : e.1 = d.citySlug
        · simp [he]
        · simp [he]
      constructor
      · rw [hkeys]
        exact ih.1
      · -- exactly one entry has the key (keys are distinct), so the sum bumps by 1
        obtain ⟨v, hv⟩ := Option.isSome_iff_exists.mp hsome
        have hone : ∀ (m : List (JStr × JStr × Nat)),
            (m.map (fun e => e.1)).Nodup → mapGet m d.citySlug = some v →
            ((m.map (fun e => if e.1 = d.citySlug then (e.1, e.2.1, e.2.2 + 1) else e)).map
              (fun e => e.2.2)).sum = ((m.map (fun e => e.2.2)).sum) + 1 := by
          intro m
          induction m with
          | nil => intro _ hm; cases hm
          | cons e es ihm =>
            intro hnd hm
            obtain ⟨ek, ev⟩ := e
            rw [List.map_cons, List.nodup_cons] at hnd
            rw [mapGet] at hm
            by_cases hek : ek = d.citySlug
            · rw [if_pos hek.symm] at hm
              have hes : es.map
                  (fun e => if e.1 = d.citySlug then (e.1, e.2.1, e.2.2 + 1) else e)
                  = es := by
                have hpt : ∀ x ∈ es,
                    (if x.1 = d.citySlug then (x.1, x.2.1, x.2.2 + 1) else x) = x := by
                  intro x hx
                  have hne : x.1 ≠ d.citySlug := by
                    intro hc
                    apply hnd.1
                    rw [hek, ← hc]
                    exact List.mem_map.mpr ⟨x, hx, rfl⟩
                  simp [hne]
                calc es.map (fun e => if e.1 = d.citySlug then (e.1, e.2.1, e.2.2 + 1) else e)
                    = es.map id := List.map_congr_left hpt
                  _ = es := List.map_id es
              simp only [List.map_cons, if_pos hek, hes, List.sum_cons]
              omega
            · rw [if_neg (fun hc => hek hc.symm)] at hm
              simp only [List.map_cons, if_neg hek, List.sum_cons]
              rw [ihm hnd.2 hm]
              omega
        rw [hone _ ih.1 hv, List.length_append]
        rw [ih.2]
        rfl
    · rw [if_neg hsome]
      have hnone : mapGet (ds.foldl bumpCity []) d.citySlug = none := by
        cases h : mapGet (ds.foldl bumpCity []) d.citySlug with
        | none => rfl
        | some v => rw [h] at hsome; simp at hsome
      constructor
      · rw [List.map_append, List.map_cons, List.map_nil]
        rw [List.nodup_append]
        refine ⟨ih.1, List.nodup_singleton _, ?_⟩
        intro x hx hx'
        rw [List.mem_singleton] at hx'
        subst hx'
        exact (mapGet_eq_none_iff _ _).mp hnone hx
      · rw [List.map_append, List.sum_append, List.length_append]
        rw [ih.2]
        rfl

theorem cityCmp_le_iff (lcmp : JStr → JStr → Int) (a b : CityIndex) :
    cityCmp lcmp a b ≤ 0 ↔
      (b.count < a.count ∨ (a.count = b.count ∧ lcmp a.cityName b.cityName ≤ 0)) := by
  unfold cityCmp
  by_cases h : (b.count : Int) - a.count ≠ 0
  · rw [if_pos h]
    constructor
    · intro hle
      left
      omega
    · intro hc
      rcases hc with hc | hc
      · omega
      · omega
  · rw [if_neg h]
    constructor
    · intro hle
      right
      exact ⟨by omega, hle⟩
    · intro hc
      rcases hc with hc | hc
      · omega
      · exact hc.2

/-- C4: `getCities` has exactly one entry per distinct `citySlug` occurring in
`getAllDealers()`; each entry's `count` is the number of dealers with that
slug (so the counts sum to the number of dealers) and its `cityName` is the
city name of the first dealer with that slug; the entries are sorted by count
descending with ties broken by the `localeCompare` comparison of city names
(`lcmp` is the platform `localeCompare`; the hypotheses are the consistency
facts ECMA-402 guarantees for it). -/
theorem getCities_spec (nfkd lower : Char → List Char)
    (lcmp : JStr → JStr → Int) (mods : List (JStr × List DealerRecord))
    (htrans : ∀ x y z, lcmp x y ≤ 0 → lcmp y z ≤ 0 → lcmp x z ≤ 0)
    (htotal : ∀ x y, lcmp x y ≤ 0 ∨ lcmp y x ≤ 0) :
    ((getCitiesFrom nfkd lower lcmp mods).map (fun e => e.citySlug)).Nodup ∧
    (∀ s : JStr,
      s ∈ (getCitiesFrom nfkd lower lcmp mods).map (fun e => e.citySlug) ↔
        ∃ d ∈ getAllDealersFrom nfkd lower mods, d.citySlug = s) ∧
    (∀ e ∈ getCitiesFrom nfkd lower lcmp mods,
      e.count = (getAllDealersFrom nfkd lower mods).countP
          (fun d => decide (d.citySlug = e.citySlug)) ∧
      ((getAllDealersFrom nfkd lower mods).find?
          (fun d => decide (d.citySlug = e.citySlug))).map (fun d => d.cityName)
        = some e.cityName) ∧
    ((getCitiesFrom nfkd lower lcmp mods).map (fun e => e.count)).sum
      = (getAllDealersFrom nfkd lower mods).length ∧
    (getCitiesFrom nfkd lower lcmp mods).Sorted
      (fun a b => cityCmp lcmp a b ≤ 0) := by
  have hperm : (getCitiesFrom nfkd lower lcmp mods).Perm
      (((getAllDealersFrom nfkd lower mods).foldl bumpCity []).map
        (fun e => { citySlug := e.1, cityName := e.2.1, count := e.2.2 : CityIndex })) := by
    unfold getCitiesFrom computeCities
    exact List.perm_insertionSort _ _
  have hprops := cityFold_nodup_sum (getAllDealersFrom nfkd lower mods)
  have hkeys : (((getAllDealersFrom nfkd lower mods).foldl bumpCity []).map
        (fun e => { citySlug := e.1, cityName := e.2.1, count := e.2.2 : CityIndex })).map
        (fun e => e.citySlug)
      = ((getAllDealersFrom nfkd lower mods).foldl bumpCity []).map (fun e => e.1) := by
    rw [List.map_map]
    rfl
  refine ⟨?_, ?_, ?_, ?_, ?_⟩
  · have := (hperm.map (fun e => e.citySlug)).nodup_iff
    rw [this, hkeys]
    exact hprops.1
  · intro s
    rw [(hperm.map (fun e => e.citySlug)).mem_iff, hkeys]
    rw [show (s ∈ ((getAllDealersFrom nfkd lower mods).foldl bumpCity []).map
          (fun e => e.1)) ↔
        ¬ (mapGet ((getAllDealersFrom nfkd lower mods).foldl bumpCity []) s = none)
      from by rw [mapGet_eq_none_iff]; exact not_not.symm]
    rw [cityFold_get]
    constructor
    · intro h
      cases hf : (getAllDealersFrom nfkd lower mods).find?
          (fun d => decide (d.citySlug = s)) with
      | none => exact absurd (by rw [hf]; rfl) h
      | some d0 =>
        refine ⟨d0, List.mem_of_find?_eq_some hf, ?_⟩
        have := List.find?_some hf
        simpa using this
    · intro ⟨d0, hmem0, hs0⟩ hnone
      cases hf : (getAllDealersFrom nfkd lower mods).find?
          (fun d => decide (d.citySlug = s)) with
      | none =>
        have := List.find?_eq_none.mp hf d0 hmem0
        simp [hs0] at this
      | some d1 =>
        rw [hf] at hnone
        cases hnone
  · intro e he
    have hmem := hperm.mem_iff.mp he
    rcases List.mem_map.mp hmem with ⟨en, hen, heq⟩
    have hget := mapGet_of_mem_nodup hprops.1
      (show (en.1, en.2) ∈ _ from by rw [Prod.mk.eta]; exact hen)
    rw [cityFold_get] at hget
    cases hf : (getAllDealersFrom nfkd lower mods).find?
        (fun d => decide (d.citySlug = en.1)) with
    | none => rw [hf] at hget; cases hget
    | some d0 =>
      rw [hf] at hget
      have hget' : (d0.cityName, (getAllDealersFrom nfkd lower mods).countP
          (fun d => decide (d.citySlug = en.1))) = (en.2.1, en.2.2) :=
        Option.some.inj hget
      have hslug : e.citySlug = en.1 := by rw [← heq]
      have hname : e.cityName = en.2.1 := by rw [← heq]
      have hcount : e.count = en.2.2 := by rw [← heq]
      have h1 : en.2.1 = d0.cityName := (congrArg Prod.fst hget').symm
      have h2 : en.2.2 = (getAllDealersFrom nfkd lower mods).countP
          (fun d => decide (d.citySlug = en.1)) := (congrArg Prod.snd hget').symm
      constructor
      · rw [hcount, hslug, h2]
      · rw [hslug, hf, hname, h1]
        rfl
  · have := hperm.map (fun e => e.count)
    rw [this.sum_eq]
    have hcnts : (((getAllDealersFrom nfkd lower mods).foldl bumpCity []).map
          (fun e => { citySlug := e.1, cityName := e.2.1, count := e.2.2 : CityIndex })).map
          (fun e => e.count)
        = ((getAllDealersFrom nfkd lower mods).foldl bumpCity []).map
            (fun e => e.2.2) := by
      rw [List.map_map]
      rfl
    rw [hcnts]
    exact hprops.2
  · haveI : IsTotal CityIndex (fun a b => cityCmp lcmp a b ≤ 0) := by
      constructor
      intro a b
      rw [cityCmp_le_iff, cityCmp_le_iff]
      rcases Nat.lt_trichotomy a.count b.count with h | h | h
      · right; left; exact h
      · rcases htotal a.cityName b.cityName with hl | hl
        · left; right; exact ⟨h, hl⟩
        · right; right; exact ⟨h.symm, hl⟩
      · left; left; exact h
    haveI : IsTrans CityIndex (fun a b => cityCmp lcmp a b ≤ 0) := by
      constructor
      intro a b c hab hbc
      rw [cityCmp_le_iff] at hab hbc ⊢
      rcases hab with hab | hab <;> rcases hbc with hbc | hbc
      · left; omega
      · left; omega
      · left; omega
      · right
        exact ⟨by omega, htrans _ _ _ hab.2 hbc.2⟩
    unfold getCitiesFrom computeCities
    exact List.sorted_insertionSort _ _

/-- Witness for the C4 theorem at a concrete input (the two-record Mumbai
module, with the trivial `localeCompare`). -/
theorem getCities_spec_witness :
    ((getCitiesFrom (fun c => [c]) (fun c => [Char.toLower c]) (fun _ _ => 0)
        cxMods).map (fun e => e.citySlug)).Nodup ∧
    ((getCitiesFrom (fun c => [c]) (fun c => [Char.toLower c]) (fun _ _ => 0)
        cxMods).map (fun e => e.count)).sum
      = (getAllDealersFrom (fun c => [c]) (fun c => [Char.toLower c]) cxMods).length := by
  have h := getCities_spec (fun c => [c]) (fun c => [Char.toLower c])
    (fun _ _ => 0) cxMods (fun _ _ _ _ _ => le_refl 0)
    (fun _ _ => Or.inl (le_refl 0))
  exact ⟨h.1, h.2.2.2.1⟩

/-! ### `mapWithConcurrency` (C2)

The script helper spawns `concurrency` async workers over a shared counter
`i` and a shared `results` array; each loop iteration atomically claims
`idx = i++` (JS is single-threaded between `await` points, so the
read-increment is atomic), returns if `idx >= items.length`, and otherwise
awaits `worker(items[idx], idx)` and stores the value at `results[idx]`.
We model this as a small-step relation: each worker is `ready` (about to
claim), `holding idx` (between the claim and the store), or `done`; a
scheduler step either claims, retires a worker whose claim was past the end,
or performs a store.  `worker` is the (pure) value the awaited promise
resolves to, and `res` is the `results` array as a partial map. -/

inductive WState where
  | ready
  | holding (idx : Nat)
  | done
deriving DecidableEq

structure PoolState (β : Type _) where
  ctr : Nat
  res : Nat → Option β
  ws : List WState

/-- Start state: counter 0, empty results, `c` idle workers. -/
def initPool (β : Type _) (c : Nat) : PoolState β :=
  ⟨0, fun _ => none, List.replicate c WState.ready⟩

/-- One scheduler step of the worker pool. -/
inductive PoolStep {α β : Type _} (items : List α) (worker : α → Nat → β) :
    PoolState β → PoolState β → Prop where
  | claim (k ctr : Nat) (res : Nat → Option β) (ws : List WState) :
      ws[k]? = some WState.ready → ctr < items.length →
      PoolStep items worker ⟨ctr, res, ws⟩
        ⟨ctr + 1, res, ws.set k (WState.holding ctr)⟩
  | finish (k ctr : Nat) (res : Nat → Option β) (ws : List WState) :
      ws[k]? = some WState.ready → items.length ≤ ctr →
      PoolStep items worker ⟨ctr, res, ws⟩ ⟨ctr + 1, res, ws.set k WState.done⟩
  | write (k idx : Nat) (a : α) (ctr : Nat) (res : Nat → Option β)
      (ws : List WState) :
      ws[k]? = some (WState.holding idx) → items[idx]? = some a →
      PoolStep items worker ⟨ctr, res, ws⟩
        ⟨ctr, fun j => if j = idx then some (worker a idx) else res j,
          ws.set k WState.ready⟩

/-- The inductive invariant of the pool: the worker count is fixed; an index
is below the counter (and in range) iff it is written or held; written values
are the worker's results; a retired worker implies the counter has passed the
end. -/
def PoolInv {α β : Type _} (items : List α) (worker : α → Nat → β) (c : Nat)
    (s : PoolState β) : Prop :=
  s.ws.length = c ∧
  (∀ idx, (idx < s.ctr ∧ idx < items.length) ↔
      ((s.res idx).isSome ∨ ∃ k : Nat, s.ws[k]? = some (WState.holding idx))) ∧
  (∀ idx b, s.res idx = some b → ∃ a, items[idx]? = some a ∧ b = worker a idx) ∧
  ((∃ k : Nat, s.ws[k]? = some WState.done) → items.length ≤ s.ctr)

theorem poolInv_init {α β : Type _} (items : List α) (worker : α → Nat → β)
    (c : Nat) : PoolInv items worker c (initPool β c) := by
  unfold PoolInv initPool
  dsimp only
  refine ⟨List.length_replicate c _, ?_, ?_, ?_⟩
  · intro idx
    constructor
    · intro h
      omega
    · intro h
      rcases h with h | ⟨k, hk⟩
      · simp at h
      · rw [List.getElem?_replicate] at hk
        by_cases hkc : k < c
        · rw [if_pos hkc] at hk
          cases hk
        · rw [if_neg hkc] at hk
          cases hk
  · intro idx b h
    simp at h
  · intro ⟨k, hk⟩
    rw [List.getElem?_replicate] at hk
    by_cases hkc : k < c
    · rw [if_pos hkc] at hk
      cases hk
    · rw [if_neg hkc] at hk
      cases hk

theorem poolStep_inv {α β : Type _} {items : List α} {worker : α → Nat → β}
    {c : Nat} {s s' : PoolState β} (hstep : PoolStep items worker s s')
    (hinv : PoolInv items worker c s) : PoolInv items worker c s' := by
  obtain ⟨hlen, hiff, hval, hdone⟩ := hinv
  cases hstep with
  | claim k ctr res ws hk hctr =>
    dsimp only at hlen hiff hval hdone
    have hklen : k < ws.length := (List.getElem?_eq_some_iff.mp hk).1
    unfold PoolInv
    dsimp only
    refine ⟨by simpa using hlen, ?_, hval, ?_⟩
    · intro idx
      constructor
      · intro ⟨h1, h2⟩
        by_cases hidx : idx = ctr
        · subst hidx
          right
          exact ⟨k, by rw [List.getElem?_set_self hklen]⟩
        · have := (hiff idx).mp ⟨by omega, h2⟩
          rcases this with h | ⟨k', hk'⟩
          · exact Or.inl h
          · right
            have hkk : k' ≠ k := by
              intro hc
              subst hc
              rw [hk'] at hk
              cases hk
            exact ⟨k', by rw [List.getElem?_set_ne (Ne.symm hkk)]; exact hk'⟩
      · intro h
        rcases h with h | ⟨k', hk'⟩
        · have := (hiff idx).mpr (Or.inl h)
          omega
        · by_cases hkk : k' = k
          · subst hkk
            rw [List.getElem?_set_self hklen] at hk'
            injection hk' with hk'
            cases hk'
            omega
          · rw [List.getElem?_set_ne (Ne.symm hkk)] at hk'
            have := (hiff idx).mpr (Or.inr ⟨k', hk'⟩)
            omega
    · intro ⟨k', hk'⟩
      by_cases hkk : k' = k
      · subst hkk
        rw [List.getElem?_set_self hklen] at hk'
        cases hk'
      · rw [List.getElem?_set_ne (Ne.symm hkk)] at hk'
        have := hdone ⟨k', hk'⟩
        omega
  | finish k ctr res ws hk hctr =>
    dsimp only at hlen hiff hval hdone
    have hklen : k < ws.length := (List.getElem?_eq_some_iff.mp hk).1
    unfold PoolInv
    dsimp only
    refine ⟨by simpa using hlen, ?_, hval, ?_⟩
    · intro idx
      constructor
      · intro ⟨h1, h2⟩
        have := (hiff idx).mp ⟨by omega, h2⟩
        rcases this with h | ⟨k', hk'⟩
        · exact Or.inl h
        · right
          have hkk : k' ≠ k := by
            intro hc
            subst hc
            rw [hk'] at hk
            cases hk
          exact ⟨k', by rw [List.getElem?_set_ne (Ne.symm hkk)]; exact hk'⟩
      · intro h
        rcases h with h | ⟨k', hk'⟩
        · have := (hiff idx).mpr (Or.inl h)
          omega
        · by_cases hkk : k' = k
          · subst hkk
            rw [List.getElem?_set_self hklen] at hk'
            cases hk'
          · rw [List.getElem?_set_ne (Ne.symm hkk)] at hk'
            have := (hiff idx).mpr (Or.inr ⟨k', hk'⟩)
            omega
    · intro _
      omega
  | write k idx a ctr res ws hk ha =>
    dsimp only at hlen hiff hval hdone
    have hklen : k < ws.length := (List.getElem?_eq_some_iff.mp hk).1
    unfold PoolInv
    dsimp only
    refine ⟨by simpa using hlen, ?_, ?_, ?_⟩
    · intro j
      constructor
      · intro ⟨h1, h2⟩
        have := (hiff j).mp ⟨h1, h2⟩
        rcases this with h | ⟨k', hk'⟩
        · left
          by_cases hj : j = idx
          · subst hj
            simp
          · simpa [hj] using h
        · by_cases hj : j = idx
          · subst hj
            left
            simp
          · right
            have hkk : k' ≠ k := by
              intro hc
              subst hc
              rw [hk'] at hk
              injection hk with hk
              injection hk with hk
              exact hj hk
            exact ⟨k', by rw [List.getElem?_set_ne (Ne.symm hkk)]; exact hk'⟩
      · intro h
        rcases h with h | ⟨k', hk'⟩
        · by_cases hj : j = idx
          · subst hj
            exact (hiff j).mpr (Or.inr ⟨k, hk⟩)
          · simp only [hj, if_false] at h
            exact (hiff j).mpr (Or.inl h)
        · by_cases hkk : k' = k
          · subst hkk
            rw [List.getElem?_set_self hklen] at hk'
            cases hk'
          · rw [List.getElem?_set_ne (Ne.symm hkk)] at hk'
            exact (hiff j).mpr (Or.inr ⟨k', hk'⟩)
    · intro j b hb
      by_cases hj : j = idx
      · subst hj
        rw [if_pos rfl] at hb
        injection hb with hb
        exact ⟨a, ha, hb.symm⟩
      · simp only [hj, if_false] at hb
        exact hval j b hb
    · intro ⟨k', hk'⟩
      by_cases hkk : k' = k
      · subst hkk
        rw [List.getElem?_set_self hklen] at hk'
        cases hk'
      · rw [List.getElem?_set_ne (Ne.symm hkk)] at hk'
        exact hdone ⟨k', hk'⟩

theorem poolInv_reach {α β : Type _} {items : List α} {worker : α → Nat → β}
    {c : Nat} {s : PoolState β}
    (hreach : Relation.ReflTransGen (PoolStep items worker) (initPool β c) s) :
    PoolInv items worker c s := by
  induction hreach with
  | refl => exact poolInv_init items worker c
  | tail hstep hinv ih => exact poolStep_inv hinv ih

/-- C2: for every item list, every concurrency `c ≥ 1`, every (pure) worker
and every schedule: when the pool terminates (all workers retired), the
results array is exactly `items.mapIdx (fun i a => worker a i)` — same length
as `items`, the entry at each index `idx` is `worker items[idx] idx`, every
item processed, nothing written beyond the end.  The right-hand side does not
mention `c` or the schedule, so the result is independent of the concurrency
value. -/
theorem mapWithConcurrency_spec {α β : Type _} (items : List α)
    (worker : α → Nat → β) (c : Nat) (hc : 1 ≤ c) (s : PoolState β)
    (hreach : Relation.ReflTransGen (PoolStep items worker) (initPool β c) s)
    (hterm : ∀ w ∈ s.ws, w = WState.done) :
    ((List.range items.length).map s.res
        = items.mapIdx (fun i a => some (worker a i))) ∧
    (∀ idx, items.length ≤ idx → s.res idx = none) := by
  obtain ⟨hlen, hiff, hval, hdone⟩ := poolInv_reach hreach
  have hctr : items.length ≤ s.ctr := by
    apply hdone
    cases hg : s.ws[0]? with
    | none =>
      rw [List.getElem?_eq_none_iff] at hg
      omega
    | some w =>
      have hmem : w ∈ s.ws := List.getElem?_mem hg
      rw [hterm w hmem] at hg
      exact ⟨0, hg⟩
  have hwritten : ∀ idx, idx < items.length →
      ∃ a, items[idx]? = some a ∧ s.res idx = some (worker a idx) := by
    intro idx hidx
    have := (hiff idx).mp ⟨by omega, hidx⟩
    rcases this with h | ⟨k, hk⟩
    · obtain ⟨b, hb⟩ := Option.isSome_iff_exists.mp h
      obtain ⟨a, ha, hba⟩ := hval idx b hb
      exact ⟨a, ha, by rw [hb, hba]⟩
    · exfalso
      have hmem : WState.holding idx ∈ s.ws := List.getElem?_mem hk
      have := hterm _ hmem
      cases this
  have hnone : ∀ idx, items.length ≤ idx → s.res idx = none := by
    intro idx hidx
    cases hr : s.res idx with
    | none => rfl
    | some b =>
      obtain ⟨a, ha, _⟩ := hval idx b hr
      have := (List.getElem?_eq_some_iff.mp ha).1
      omega
  refine ⟨?_, hnone⟩
  apply List.ext_getElem?
  intro i
  rw [List.getElem?_map, List.getElem?_mapIdx]
  by_cases hi : i < items.length
  · rw [List.getElem?_range hi]
    obtain ⟨a, ha, hres⟩ := hwritten i hi
    rw [ha]
    simp only [Option.map_some']
    rw [hres]
  · have h1 : (List.range items.length)[i]? = none := by
      rw [List.getElem?_eq_none_iff]
      simpa using hi
    have h2 : items[i]? = none := by
      rw [List.getElem?_eq_none_iff]
      omega
    rw [h1, h2]
    rfl

/-- Witness for C2: a concrete single-worker run over `[10, 20]` with
`worker a i = a + i`, stepping claim-write-claim-write-finish. -/
theorem mapWithConcurrency_spec_witness :
    (List.range 2).map
        (fun j => if j = 1 then some 21 else if j = 0 then some 10
          else (none : Option Nat))
      = [10, 20].mapIdx (fun i a => some (a + i)) ∧
    (fun j => if j = 1 then some 21 else if j = 0 then some 10
      else (none : Option Nat)) 5 = none := by
  have hreach : Relation.ReflTransGen (PoolStep [10, 20] (fun a i => a + i))
      (initPool Nat 1)
      ⟨3, fun j => if j = 1 then some 21 else if j = 0 then some 10 else none,
        [WState.done]⟩ := by
    refine Relation.ReflTransGen.head
      (PoolStep.claim 0 0 (fun _ => none) [WState.ready] rfl (by decide)) ?_
    refine Relation.ReflTransGen.head
      (PoolStep.write 0 0 10 1 (fun _ => none) [WState.holding 0] rfl rfl) ?_
    refine Relation.ReflTransGen.head
      (PoolStep.claim 0 1
        (fun j => if j = 0 then some ((fun a i => a + i) 10 0) else (fun _ => none) j)
        [WState.ready] rfl (by decide)) ?_
    refine Relation.ReflTransGen.head
      (PoolStep.write 0 1 20 2
        (fun j => if j = 0 then some ((fun a i => a + i) 10 0) else (fun _ => none) j)
        [WState.holding 1] rfl rfl) ?_
    refine Relation.ReflTransGen.head
      (PoolStep.finish 0 2
        (fun j => if j = 1 then some ((fun a i => a + i) 20 1)
          else (fun j' => if j' = 0 then some ((fun a i => a + i) 10 0)
            else (fun _ => none) j') j)
        [WState.ready] rfl (by decide)) ?_
    exact Relation.ReflTransGen.refl
  have h := mapWithConcurrency_spec [10, 20] (fun a i => a + i) 1 (by decide)
    ⟨3, fun j => if j = 1 then some 21 else if j = 0 then some 10 else none,
      [WState.done]⟩
    hreach (by intro w hw; simpa using hw)
  exact ⟨h.1, h.2 5 (by decide)⟩

/-! ### The SQL-over-HTTP `getCars` variant (C9) -/

/-- `FetchCarsOptions` (shared by both `getCars` variants): absent fields are
`none`; JS truthiness makes the empty string and `0` behave like absent. -/
structure FetchCarsOpts where
  limit : Option Int := none
  offset : Option Int := none
  sort_by : Option JStr := none
  order : Option JStr := none
  city : Option JStr := none
  oem : Option JStr := none
  model : Option JStr := none
  body_type : Option JStr := none
  fuel_type : Option JStr := none
deriving DecidableEq

/-- JS truthiness of an optional string option (`if (options.city)`). -/
def truthyStrOpt (x : Option JStr) : Bool :=
  match x with
  | some s => !s.isEmpty
  | none => false

/-- JS `options.limit || d` for an optional number. -/
def jsOrInt (x : Option Int) (d : Int) : Int :=
  match x with
  | some n => if n ≠ 0 then n else d
  | none => d

/-- JS truthiness of an optional number option. -/
def truthyIntOpt (x : Option Int) : Bool :=
  match x with
  | some n => decide (n ≠ 0)
  | none => false

inductive SqlParam where
  | s (v : JStr)
  | i (v : Int)
deriving DecidableEq

/-- The template-literal head of the query. -/
def sqlBase : JStr :=
  str "\n    SELECT c.*, i.image_url \n    FROM used_cars c \n    LEFT JOIN car_images i ON c.used_car_id = i.used_car_id AND i.is_primary = 1\n  "

/-- The forgiving city clause (its quote characters built from code points). -/
def likeClause : JStr :=
  str "(LOWER(c.city) = LOWER(?) OR LOWER(c.city) LIKE " ++
    (apos :: '%' :: apos :: []) ++ str " || LOWER(?) || " ++
    (apos :: '%' :: apos :: []) ++ str ")"

/-- The sort column chosen by the SQL `getCars`. -/
def sortColOf (o : FetchCarsOpts) : JStr :=
  if o.sort_by = some (str "price") then str "c.price" else str "c.created_at"

/-- The sort direction chosen by the SQL `getCars`. -/
def sortOrderOf (o : FetchCarsOpts) : JStr :=
  if o.order = some (str "asc") then str "ASC" else str "DESC"

/-- The `WHERE` clause list, in push order. -/
def whereClausesOf (o : FetchCarsOpts) : List JStr :=
  (if truthyStrOpt o.city then [likeClause] else []) ++
  (if truthyStrOpt o.oem then [str "c.oem = ?"] else []) ++
  (if truthyStrOpt o.model then [str "c.model = ?"] else []) ++
  (if truthyStrOpt o.body_type then [str "c.body_type = ?"] else []) ++
  (if truthyStrOpt o.fuel_type then [str "c.fuel_type = ?"] else [])

/-- The bound filter parameters, in push order (the city value twice). -/
def filterParamsOf (o : FetchCarsOpts) : List SqlParam :=
  (if truthyStrOpt o.city then
    [SqlParam.s (o.city.getD []), SqlParam.s (o.city.getD [])] else []) ++
  (if truthyStrOpt o.oem then [SqlParam.s (o.oem.getD [])] else []) ++
  (if truthyStrOpt o.model then [SqlParam.s (o.model.getD [])] else []) ++
  (if truthyStrOpt o.body_type then [SqlParam.s (o.body_type.getD [])] else []) ++
  (if truthyStrOpt o.fuel_type then [SqlParam.s (o.fuel_type.getD [])] else [])

/-- The SQL `getCars` query builder: text and bound parameters, mirroring the
source's string concatenation and `params.push` order. -/
def buildCarsSql (o : FetchCarsOpts) : JStr × List SqlParam :=
  let clauses := whereClausesOf o
  let sql1 := sqlBase ++
    (if clauses ≠ [] then str " WHERE " ++ List.intercalate (str " AND ") clauses
     else [])
  let sql2 := sql1 ++ str " ORDER BY " ++ sortColOf o ++ str " " ++ sortOrderOf o
  let sql3 := sql2 ++ str " LIMIT ? OFFSET ?"
  (sql3, filterParamsOf o ++
    [SqlParam.i (jsOrInt o.limit 24), SqlParam.i (jsOrInt o.offset 0)])

/-- The fixed family of SQL texts: a function of the five filter presence
bits and the two sort bits only — no caller-supplied value occurs in it. -/
def carsSqlShape (city oem model body fuel priceSort asc : Bool) : JStr :=
  let clauses := (if city then [likeClause] else []) ++
    (if oem then [str "c.oem = ?"] else []) ++
    (if model then [str "c.model = ?"] else []) ++
    (if body then [str "c.body_type = ?"] else []) ++
    (if fuel then [str "c.fuel_type = ?"] else [])
  sqlBase ++
    (if clauses ≠ [] then str " WHERE " ++ List.intercalate (str " AND ") clauses
     else []) ++
    str " ORDER BY " ++ (if priceSort then str "c.price" else str "c.created_at") ++
    str " " ++ (if asc then str "ASC" else str "DESC") ++ str " LIMIT ? OFFSET ?"

/-- C9 (amended): the SQL text is drawn from the fixed whitelist family
`carsSqlShape` — it depends only on which options are present and on the two
sort flags, never on the option values, which travel only in the bound
parameter list; the sort column is `c.price` exactly for
`sort_by === 'price'` (else `c.created_at`), the direction `ASC` exactly for
`order === 'asc'` (else `DESC`); the bound LIMIT is 24 when `options.limit`
is absent or 0, and the bound OFFSET is 0 when `options.offset` is absent or
0 (each default independent of the other option). -/
theorem sqlGetCars_whitelist (o : FetchCarsOpts) :
    ((buildCarsSql o).1 = carsSqlShape (truthyStrOpt o.city) (truthyStrOpt o.oem)
      (truthyStrOpt o.model) (truthyStrOpt o.body_type) (truthyStrOpt o.fuel_type)
      (decide (o.sort_by = some (str "price"))) (decide (o.order = some (str "asc")))) ∧
    (sortColOf o = str "c.price" ↔ o.sort_by = some (str "price")) ∧
    (sortColOf o = str "c.price" ∨ sortColOf o = str "c.created_at") ∧
    (sortOrderOf o = str "ASC" ↔ o.order = some (str "asc")) ∧
    (sortOrderOf o = str "ASC" ∨ sortOrderOf o = str "DESC") ∧
    ((buildCarsSql o).2 = filterParamsOf o ++
      [SqlParam.i (jsOrInt o.limit 24), SqlParam.i (jsOrInt o.offset 0)]) ∧
    (¬ truthyIntOpt o.limit = true → jsOrInt o.limit 24 = 24) ∧
    (¬ truthyIntOpt o.offset = true → jsOrInt o.offset 0 = 0) := by
  refine ⟨?_, ?_, ?_, ?_, ?_, rfl, ?_, ?_⟩
  · unfold buildCarsSql carsSqlShape whereClausesOf sortColOf sortOrderOf
    by_cases h6 : o.sort_by = some (str "price") <;>
      by_cases h7 : o.order = some (str "asc") <;>
        simp [h6, h7, List.append_assoc]
  · unfold sortColOf
    by_cases h : o.sort_by = some (str "price")
    · rw [if_pos h]
      simp [h]
    · rw [if_neg h]
      constructor
      · intro hc
        exact absurd hc (by decide)
      · intro hc
        exact absurd hc h
  · unfold sortColOf
    by_cases h : o.sort_by = some (str "price")
    · rw [if_pos h]; left; rfl
    · rw [if_neg h]; right; rfl
  · unfold sortOrderOf
    by_cases h : o.order = some (str "asc")
    · rw [if_pos h]
      simp [h]
    · rw [if_neg h]
      constructor
      · intro hc
        exact absurd hc (by decide)
      · intro hc
        exact absurd hc h
  · unfold sortOrderOf
    by_cases h : o.order = some (str "asc")
    · rw [if_pos h]; left; rfl
    · rw [if_neg h]; right; rfl
  · intro h
    cases hx : o.limit with
    | none => rfl
    | some n =>
      rw [hx] at h
      unfold truthyIntOpt at h
      simp only [decide_eq_true_eq, Decidable.not_not] at h
      show (if n ≠ 0 then n else 24) = 24
      rw [if_neg (by omega)]
  · intro h
    cases hx : o.offset with
    | none => rfl
    | some n =>
      rw [hx] at h
      unfold truthyIntOpt at h
      simp only [decide_eq_true_eq, Decidable.not_not] at h
      show (if n ≠ 0 then n else 0) = 0
      rw [if_neg (by omega)]

/-- Witness for C9 at the default (empty) options. -/
theorem sqlGetCars_whitelist_witness :
    (buildCarsSql {}).1 = carsSqlShape false false false false false false false ∧
    jsOrInt (none : Option Int) 24 = 24 ∧ jsOrInt (none : Option Int) 0 = 0 := by
  have h := sqlGetCars_whitelist {}
  exact ⟨h.1, h.2.2.2.2.2.2.1 (by decide), h.2.2.2.2.2.2.2 (by decide)⟩

def o50 : FetchCarsOpts := { offset := some 50 }

/-- C9 counterexample: with `limit` absent but `offset: 50`, the bound LIMIT
is 24 yet the bound OFFSET is 50, not 0 — the claim's \"LIMIT is 24 with
OFFSET 0\" ties the offset default to the limit condition, which the code
does not. -/
theorem sqlGetCars_offset_counterexample :
    o50.limit = none ∧
    (buildCarsSql o50).2 = [SqlParam.i 24, SqlParam.i 50] ∧
    SqlParam.i 50 ≠ SqlParam.i 0 := by
  decide

/-! ### JSON values, truthiness and the remote-API model (C5, C10) -/

/-- Dynamic JS values as the API layer sees them: JSON data plus `undefined`
(numbers as integers; no floats occur in the modelled paths). -/
inductive JVal where
  | null
  | undef
  | bool (b : Bool)
  | num (n : Int)
  | str (s : JStr)
  | arr (xs : List JVal)
  | obj (fields : List (JStr × JVal))

/-- JS truthiness. -/
def truthy (v : JVal) : Bool :=
  match v with
  | .null => false
  | .undef => false
  | .bool b => b
  | .num n => decide (n ≠ 0)
  | .str s => !s.isEmpty
  | .arr _ => true
  | .obj _ => true

/-- JS `a || b`. -/
def jsOrVal (a b : JVal) : JVal := if truthy a then a else b

/-- Property access `v[k]`: throws (`.error`) on `null`/`undefined`, yields
the field of an object (or `undefined`), and `undefined` on other
primitives. -/
def jsGet (v : JVal) (k : JStr) : Except JStr JVal :=
  match v with
  | .null => .error (str "TypeError")
  | .undef => .error (str "TypeError")
  | .obj fields => .ok ((mapGet fields k).getD .undef)
  | _ => .ok ( .undef : JVal)

/-- Total field access for stating theorems about non-nullish values. -/
def fieldVal (v : JVal) (k : JStr) : JVal :=
  match v with
  | .obj fields => (mapGet fields k).getD .undef
  | _ => .undef

theorem jsGet_ok {v : JVal} (h1 : v ≠ .null) (h2 : v ≠ .undef) (k : JStr) :
    jsGet v k = .ok (fieldVal v k) := by
  cases v with
  | null => exact absurd rfl h1
  | undef => exact absurd rfl h2
  | bool b => rfl
  | num n => rfl
  | str s => rfl
  | arr xs => rfl
  | obj fields => rfl

/-- Insert-or-overwrite a field, keeping the original position (object
spread with a trailing explicit key). -/
def setField (fields : List (JStr × JVal)) (k : JStr) (x : JVal) :
    List (JStr × JVal) :=
  if (mapGet fields k).isSome then
    fields.map (fun e => if e.1 = k then (e.1, x) else e)
  else fields ++ [(k, x)]

/-- The fields contributed by `{...car}` (primitives spread to nothing). -/
def baseFields (v : JVal) : List (JStr × JVal) :=
  match v with
  | .obj fields => fields
  | _ => []

/-! #### The contact-form POST handler (C10) -/

/-- The outcome of one request: HTTP status, JSON payload, and the list of
INSERT attempts (each the bound column values). -/
structure HandlerResult where
  status : Nat
  payload : JVal
  inserts : List (List JVal)

/-- The catch-all 500 answer of the handler (`error.message` carried). -/
def catch500 (e : JStr) : HandlerResult :=
  ⟨500, .obj [(str "error", .str (str "Failed to submit contact form")),
    (str "message", .str e)], []⟩

/-- `src/pages/rest/contact_form.ts` `POST`.  `parse` is the result of
`request.json()` (`.error` = the promise rejected), `db` the optional
`used_cars_db` binding whose `run` either succeeds or throws; the
destructuring `const { name, phone_number, ... } = body` throws exactly when
`body` is nullish, which the sequential `jsGet`s replicate. -/
def contactFormPost (parse : Except JStr JVal)
    (db : Option (List JVal → Except JStr Unit)) : HandlerResult :=
  match parse with
  | .error e => catch500 e
  | .ok body =>
    match jsGet body (str "name") with
    | .error e => catch500 e
    | .ok name =>
      match jsGet body (str "phone_number") with
      | .error e => catch500 e
      | .ok phone =>
        match jsGet body (str "email") with
        | .error e => catch500 e
        | .ok email =>
          match jsGet body (str "car_name") with
          | .error e => catch500 e
          | .ok car =>
            match jsGet body (str "location") with
            | .error e => catch500 e
            | .ok loc =>
              match jsGet body (str "is_sell") with
              | .error e => catch500 e
              | .ok isSell =>
                if !(truthy name) || !(truthy phone) then
                  ⟨400, .obj [(str "error",
                    .str (str "Name and phone number are required"))], []⟩
                else
                  match db with
                  | none => ⟨500, .obj [(str "error",
                      .str (str "Database not available"))], []⟩
                  | some run =>
                    let params := [name, phone, jsOrVal email .null,
                      jsOrVal car .null, jsOrVal loc .null,
                      .num (if truthy isSell then 1 else 0)]
                    match run params with
                    | .error e => catch500 e
                    | .ok _ => ⟨201, .obj [(str "message",
                        .str (str "Resource created successfully")),
                      (str "data", .obj [(str "name", name),
                        (str "phone_number", phone),
                        (str "email", jsOrVal email .null),
                        (str "car_name", jsOrVal car .null),
                        (str "location", jsOrVal loc .null),
                        (str "is_sell", .bool (truthy isSell))])], [params]⟩

/-- The bound values of the INSERT the handler performs. -/
def contactParams (body : JVal) : List JVal :=
  [fieldVal body (str "name"), fieldVal body (str "phone_number"),
   jsOrVal (fieldVal body (str "email")) .null,
   jsOrVal (fieldVal body (str "car_name")) .null,
   jsOrVal (fieldVal body (str "location")) .null,
   .num (if truthy (fieldVal body (str "is_sell")) then 1 else 0)]

/-- C10: on a parsed JSON body without a truthy `name` or truthy
`phone_number`, the handler answers 400 with the required-fields error and
performs no INSERT; with both present, a database binding, and a successful
insert, it answers 201 with the success message and performs exactly that
INSERT. -/
theorem contactForm_spec (body : JVal) (hn1 : body ≠ .null)
    (hn2 : body ≠ .undef) (db : Option (List JVal → Except JStr Unit)) :
    (¬ (truthy (fieldVal body (str "name")) = true ∧
        truthy (fieldVal body (str "phone_number")) = true) →
      contactFormPost (.ok body) db
        = ⟨400, .obj [(str "error",
            .str (str "Name and phone number are required"))], []⟩) ∧
    (∀ run, db = some run →
      truthy (fieldVal body (str "name")) = true →
      truthy (fieldVal body (str "phone_number")) = true →
      run (contactParams body) = .ok () →
      (contactFormPost (.ok body) db).status = 201 ∧
      jsGet (contactFormPost (.ok body) db).payload (str "message")
        = .ok (.str (str "Resource created successfully")) ∧
      (contactFormPost (.ok body) db).inserts = [contactParams body]) := by
  constructor
  · intro hmiss
    have hcond : (!(truthy (fieldVal body (str "name")))
        || !(truthy (fieldVal body (str "phone_number")))) = true := by
      rcases Decidable.not_and_iff_or_not.mp hmiss with h | h <;>
        simp [Bool.not_eq_true] at h <;> simp [h]
    unfold contactFormPost
    simp only [jsGet_ok hn1 hn2, hcond, if_true]
  · intro run hdb hname hphone hrun
    subst hdb
    have hcond : (!(truthy (fieldVal body (str "name")))
        || !(truthy (fieldVal body (str "phone_number")))) = false := by
      simp [hname, hphone]
    unfold contactParams at hrun
    unfold contactFormPost
    simp only [jsGet_ok hn1 hn2, hcond, Bool.false_eq_true, if_false, hrun]
    exact ⟨trivial, rfl, rfl⟩

def cfBodyMiss : JVal := .obj [(str "phone_number", .str (str "9999"))]

def cfBodyFull : JVal :=
  .obj [(str "name", .str (str "Asha")), (str "phone_number", .str (str "9999"))]

/-- Witness for C10: a body missing `name` gets 400 and no INSERT; a complete
body with a succeeding database insert gets 201 with exactly one INSERT. -/
theorem contactForm_spec_witness :
    contactFormPost (.ok cfBodyMiss) none
      = ⟨400, .obj [(str "error",
          .str (str "Name and phone number are required"))], []⟩ ∧
    (contactFormPost (.ok cfBodyFull) (some (fun _ => .ok ()))).status = 201 ∧
    (contactFormPost (.ok cfBodyFull) (some (fun _ => .ok ()))).inserts
      = [contactParams cfBodyFull] := by
  have h1 := contactForm_spec cfBodyMiss (fun h => JVal.noConfusion h)
    (fun h => JVal.noConfusion h) none
  have h2 := contactForm_spec cfBodyFull (fun h => JVal.noConfusion h)
    (fun h => JVal.noConfusion h) (some (fun _ => .ok ()))
  refine ⟨h1.1 (by decide), ?_, ?_⟩
  · exact (h2.2 (fun _ => .ok ()) rfl (by decide) (by decide) rfl).1
  · exact (h2.2 (fun _ => .ok ()) rfl (by decide) (by decide) rfl).2.2

/-! #### The cars REST client (`src/lib/api.ts`, C5) -/

mutual

/-- Structural equality of JS values, modelling `Set` membership
(SameValueZero; object identity is approximated structurally, but the
collected filter values are strings). -/
def jvalBeq : JVal → JVal → Bool
  | .null, .null => true
  | .undef, .undef => true
  | .bool a, .bool b => a == b
  | .num a, .num b => a == b
  | .str a, .str b => a == b
  | .arr xs, .arr ys => jvalBeqList xs ys
  | .obj xs, .obj ys => jvalBeqFields xs ys
  | _, _ => false

def jvalBeqList : List JVal → List JVal → Bool
  | [], [] => true
  | x :: xs, y :: ys => jvalBeq x y && jvalBeqList xs ys
  | _, _ => false

def jvalBeqFields : List (JStr × JVal) → List (JStr × JVal) → Bool
  | [], [] => true
  | (k1, v1) :: xs, (k2, v2) :: ys =>
    k1 == k2 && jvalBeq v1 v2 && jvalBeqFields xs ys
  | _, _ => false
end

def base10DigitChars : JStr := str "0123456789"

def toBase10Aux : Nat → Nat → JStr
  | 0, _ => []
  | fuel + 1, n =>
    if n = 0 then []
    else toBase10Aux fuel (n / 10) ++ [base10DigitChars.getD (n % 10) '0']

def natToStr (n : Nat) : JStr := if n = 0 then str "0" else toBase10Aux (n + 1) n

def intToStr (n : Int) : JStr :=
  if n < 0 then '-' :: natToStr n.natAbs else natToStr n.natAbs

/-- JS `String(v)` / template interpolation. -/
def jsToString : JVal → JStr
  | .null => str "null"
  | .undef => str "undefined"
  | .bool true => str "true"
  | .bool false => str "false"
  | .num n => intToStr n
  | .str s => s
  | .arr xs => List.intercalate (str ",") (xs.attach.map (fun x => jsToString x.1))
  | .obj _ => str "[object Object]"
decreasing_by
  simp_wf
  have h := List.sizeOf_lt_of_mem x.2
  omega

/-- UTF-16 code-unit lexicographic order (the default `Array.sort`
comparison after `String` conversion; code points agree on the BMP). -/
def jstrLeB : JStr → JStr → Bool
  | [], _ => true
  | _ :: _, [] => false
  | a :: as, b :: bs =>
    if a.toNat < b.toNat then true
    else if b.toNat < a.toNat then false
    else jstrLeB as bs

/-- A request to the REST API: path under `API_URL` plus query parameters in
append order (the URL-encoding of values is a bijection on these params, so
requests are modelled structurally). -/
abbrev ApiReq := JStr × List (JStr × JStr)

/-- One HTTP response: `ok`, `status`, and the result of `json()` (`.error` =
the body promise rejected). -/
structure HttpResp where
  ok : Bool
  status : Int
  body : Except JStr JVal

/-- The network: `.error` models a rejected `fetch`. -/
abbrev Oracle := ApiReq → Except JStr HttpResp

/-- `Array.isArray(data) ? data : data.results || []`; a truthy non-array
`results` makes the later `.map`/`.length` calls throw, modelled as an
immediate error (both are caught by the surrounding handler). -/
def jsResultsArray (data : JVal) : Except JStr (List JVal) :=
  match data with
  | .arr xs => .ok xs
  | _ =>
    match jsGet data (str "results") with
    | .error e => .error e
    | .ok r =>
      if truthy r then
        match r with
        | .arr xs => .ok xs
        | _ => .error (str "TypeError")
      else .ok []

def reqAllUsedCars : ApiReq :=
  (str "used_cars", [(str "sort_by", str "created_at"), (str "order", str "desc")])

def reqCarImages (idv : JVal) : ApiReq :=
  (str "car_images", [(str "used_car_id", jsToString idv), (str "limit", str "1000")])

def reqFilterOptions : ApiReq := (str "used_cars", [(str "limit", str "10000")])

def reqCarDetails (id : Int) : ApiReq :=
  (str "used_cars", [(str "used_car_id", intToStr id), (str "limit", str "1")])

/-- The `URLSearchParams` built by the REST `getCars`, in append order. -/
def carsQueryParams (o : FetchCarsOpts) : List (JStr × JStr) :=
  (if truthyStrOpt o.city then [(str "city", o.city.getD [])] else []) ++
  (if truthyStrOpt o.oem then [(str "oem", o.oem.getD [])] else []) ++
  (if truthyStrOpt o.model then [(str "model", o.model.getD [])] else []) ++
  (if truthyStrOpt o.body_type then [(str "body_type", o.body_type.getD [])] else []) ++
  (if truthyStrOpt o.fuel_type then [(str "fuel_type", o.fuel_type.getD [])] else []) ++
  [(str "sort_by",
     if o.sort_by = some (str "price") then str "price" else str "created_at"),
   (str "order", if o.order = some (str "asc") then str "asc" else str "desc"),
   (str "limit", intToStr (jsOrInt o.limit 24)),
   (str "offset", intToStr (jsOrInt o.offset 0))]

def reqCars (o : FetchCarsOpts) : ApiReq := (str "used_cars", carsQueryParams o)

/-- `img.image_url || img.url || img.src || null` (a string element is kept
as is). -/
def pickImageUrl (img : JVal) : Except JStr JVal :=
  match img with
  | .str s => .ok (.str s)
  | _ =>
    match jsGet img (str "image_url") with
    | .error e => .error e
    | .ok a =>
      match jsGet img (str "url") with
      | .error e => .error e
      | .ok b =>
        match jsGet img (str "src") with
        | .error e => .error e
        | .ok c => .ok (jsOrVal a (jsOrVal b (jsOrVal c .null)))

def mapMExcept (f : JVal → Except JStr JVal) : List JVal → Except JStr (List JVal)
  | [] => .ok []
  | x :: xs =>
    match f x with
    | .error e => .error e
    | .ok y =>
      match mapMExcept f xs with
      | .error e => .error e
      | .ok ys => .ok (y :: ys)

/-- `api.ts` `getCarImages`: never throws to its caller. -/
def getCarImages (w : Oracle) (idv : JVal) : List JVal :=
  match w (reqCarImages idv) with
  | .error _ => []
  | .ok resp =>
    if !resp.ok then []
    else
      match resp.body with
      | .error _ => []
      | .ok data =>
        match jsResultsArray data with
        | .error _ => []
        | .ok images =>
          if images.length = 0 then []
          else
            match mapMExcept pickImageUrl images with
            | .error _ => []
            | .ok urls => urls.filter truthy

def headOrUndef (l : List JVal) : JVal :=
  match l with
  | [] => .undef
  | x :: _ => x

/-- `{...car, image_url: images[0] or undefined, images}`. -/
def enrichCar (w : Oracle) (car : JVal) : Except JStr JVal :=
  match jsGet car (str "used_car_id") with
  | .error e => .error e
  | .ok idv =>
    let images := getCarImages w idv
    .ok (.obj (setField (setField (baseFields car)
      (str "image_url") (headOrUndef images)) (str "images") (.arr images)))

/-- `api.ts` `getAllUsedCars`. -/
def getAllUsedCars (w : Oracle) : List JVal :=
  match w reqAllUsedCars with
  | .error _ => []
  | .ok resp =>
    if !resp.ok then []
    else
      match resp.body with
      | .error _ => []
      | .ok data =>
        match jsResultsArray data with
        | .error _ => []
        | .ok cars =>
          match mapMExcept (enrichCar w) cars with
          | .error _ => []
          | .ok l => l

structure FetchCarsResult where
  success : Bool
  results : List JVal
  meta : JVal

/-- `api.ts` `getCars` (the REST variant). -/
def getCars (w : Oracle) (o : FetchCarsOpts) : FetchCarsResult :=
  match w (reqCars o) with
  | .error _ => ⟨false, [], .obj []⟩
  | .ok resp =>
    if !resp.ok then ⟨false, [], .obj []⟩
    else
      match resp.body with
      | .error _ => ⟨false, [], .obj []⟩
      | .ok data =>
        match jsResultsArray data with
        | .error _ => ⟨false, [], .obj []⟩
        | .ok cars =>
          match mapMExcept (enrichCar w) cars with
          | .error _ => ⟨false, [], .obj []⟩
          | .ok enriched =>
            match jsGet data (str "meta") with
            | .error _ => ⟨false, [], .obj []⟩
            | .ok meta =>
              ⟨true, enriched,
                if truthy meta then meta
                else .obj [(str "total", .num cars.length)]⟩

structure FilterOptions where
  oems : List JVal
  cities : List JVal
  bodyTypes : List JVal
  fuelTypes : List JVal

/-- `Set.add` keeping insertion order. -/
def addToSet (acc : List JVal) (x : JVal) : List JVal :=
  if acc.any (fun y => jvalBeq y x) then acc else acc ++ [x]

def collectFilters :
    List JVal → List JVal × List JVal × List JVal × List JVal →
      Except JStr (List JVal × List JVal × List JVal × List JVal)
  | [], acc => .ok acc
  | car :: rest, (os, cs, bs, fs) =>
    match jsGet car (str "oem") with
    | .error e => .error e
    | .ok o =>
      match jsGet car (str "city") with
      | .error e => .error e
      | .ok c =>
        match jsGet car (str "body_type") with
        | .error e => .error e
        | .ok b =>
          match jsGet car (str "fuel_type") with
          | .error e => .error e
          | .ok f =>
            collectFilters rest
              (if truthy o then addToSet os o else os,
               if truthy c then addToSet cs c else cs,
               if truthy b then addToSet bs b else bs,
               if truthy f then addToSet fs f else fs)

/-- Default `Array.sort()`: string conversion, code-unit order (a stable
sort, modelled by insertion sort as for the other comparators). -/
def sortJs (l : List JVal) : List JVal :=
  l.insertionSort (fun a b => jstrLeB (jsToString a) (jsToString b) = true)

/-- `api.ts` `getFilterOptions`. -/
def getFilterOptions (w : Oracle) : FilterOptions :=
  match w reqFilterOptions with
  | .error _ => ⟨[], [], [], []⟩
  | .ok resp =>
    if !resp.ok then ⟨[], [], [], []⟩
    else
      match resp.body with
      | .error _ => ⟨[], [], [], []⟩
      | .ok data =>
        match jsResultsArray data with
        | .error _ => ⟨[], [], [], []⟩
        | .ok cars =>
          match collectFilters cars ([], [], [], []) with
          | .error _ => ⟨[], [], [], []⟩
          | .ok (os, cs, bs, fs) => ⟨sortJs os, sortJs cs, sortJs bs, sortJs fs⟩

/-- `api.ts` `getCarDetails`. -/
def getCarDetails (w : Oracle) (id : Int) : Option JVal :=
  match w (reqCarDetails id) with
  | .error _ => none
  | .ok resp =>
    if !resp.ok then none
    else
      match resp.body with
      | .error _ => none
      | .ok data =>
        match jsResultsArray data with
        | .error _ => none
        | .ok cars =>
          match cars with
          | [] => none
          | car :: _ =>
            let images := getCarImages w (.num id)
            some (.obj (setField (setField (baseFields car)
              (str "image_url") (headOrUndef images)) (str "images") (.arr images)))

/-- The remote call at `req` fails: the fetch rejects, the response is not
`ok`, or reading the JSON body throws. -/
def failsAt (w : Oracle) (req : ApiReq) : Prop :=
  (∃ e, w req = .error e) ∨
    ∃ resp, w req = .ok resp ∧ (resp.ok = false ∨ ∃ e, resp.body = .error e)

/-- C5: whenever the remote call made by a cars-API function fails (fetch
rejects, response not ok, or JSON handling throws), the function returns its
fallback value rather than propagating the exception: `getAllUsedCars` the
empty list, `getCars` `{success: false, results: [], meta: {}}`,
`getFilterOptions` empty option lists, `getCarDetails` `null`.  (The model
functions are total, mirroring the enclosing try/catch: no path throws to
the caller.) -/
theorem apiFallbacks (w : Oracle) (o : FetchCarsOpts) (id : Int) :
    (failsAt w reqAllUsedCars → getAllUsedCars w = []) ∧
    (failsAt w (reqCars o) → getCars w o = ⟨false, [], .obj []⟩) ∧
    (failsAt w reqFilterOptions → getFilterOptions w = ⟨[], [], [], []⟩) ∧
    (failsAt w (reqCarDetails id) → getCarDetails w id = none) := by
  refine ⟨?_, ?_, ?_, ?_⟩
  · intro hfail
    unfold getAllUsedCars
    rcases hfail with ⟨e, hw⟩ | ⟨resp, hw, hbad⟩
    · rw [hw]
    · rw [hw]
      rcases hbad with hok | ⟨e, hbody⟩
      · simp [hok]
      · by_cases hok : resp.ok
        · simp [hok, hbody]
        · simp [hok]
  · intro hfail
    unfold getCars
    rcases hfail with ⟨e, hw⟩ | ⟨resp, hw, hbad⟩
    · rw [hw]
    · rw [hw]
      rcases hbad with hok | ⟨e, hbody⟩
      · simp [hok]
      · by_cases hok : resp.ok
        · simp [hok, hbody]
        · simp [hok]
  · intro hfail
    unfold getFilterOptions
    rcases hfail with ⟨e, hw⟩ | ⟨resp, hw, hbad⟩
    · rw [hw]
    · rw [hw]
      rcases hbad with hok | ⟨e, hbody⟩
      · simp [hok]
      · by_cases hok : resp.ok
        · simp [hok, hbody]
        · simp [hok]
  · intro hfail
    unfold getCarDetails
    rcases hfail with ⟨e, hw⟩ | ⟨resp, hw, hbad⟩
    · rw [hw]
    · rw [hw]
      rcases hbad with hok | ⟨e, hbody⟩
      · simp [hok]
      · by_cases hok : resp.ok
        · simp [hok, hbody]
        · simp [hok]

/-- Witness for C5 at a network that always rejects. -/
theorem apiFallbacks_witness :
    getAllUsedCars (fun _ => .error (str "network")) = [] ∧
    getCars (fun _ => .error (str "network")) {} = ⟨false, [], .obj []⟩ ∧
    getFilterOptions (fun _ => .error (str "network")) = ⟨[], [], [], []⟩ ∧
    getCarDetails (fun _ => .error (str "network")) 7 = none := by
  have h := apiFallbacks (fun _ => .error (str "network")) {} 7
  exact ⟨h.1 (Or.inl ⟨_, rfl⟩), h.2.1 (Or.inl ⟨_, rfl⟩),
    h.2.2.1 (Or.inl ⟨_, rfl⟩), h.2.2.2 (Or.inl ⟨_, rfl⟩)⟩

/-! #### The image migration script (`ensureUploaded`, C6) -/

/-- Does `s` start with `sub`? -/
def leadMatch : JStr → JStr → Bool
  | [], _ => true
  | _ :: _, [] => false
  | a :: as, b :: bs => a == b && leadMatch as bs

/-- JS `s.includes(sub)`. -/
def jsIncludes (sub : JStr) : JStr → Bool
  | [] => leadMatch sub []
  | c :: rest => leadMatch sub (c :: rest) || jsIncludes sub rest

/-- JS `s.endsWith(suf)`. -/
def jsEndsWith (s suf : JStr) : Bool := leadMatch suf.reverse s.reverse

/-- JS `a || b` where `a : string | undefined` and the result feeds another
`||`. -/
def orFalsy (a b : Option JStr) : Option JStr :=
  match a with
  | some s => if s = [] then b else some s
  | none => b

/-- JS `a || d` with a string default. -/
def falsyOr (a : Option JStr) (d : JStr) : JStr :=
  match a with
  | some s => if s = [] then d else s
  | none => d

/-- `extFromContentType` from the migrator: substring checks on the
lowercased content type (`toLowerCase` is a parameter, as for `slugify`). -/
def extFromContentType (lower : Char → List Char) (ct : JStr) : Option JStr :=
  let s := ct.flatMap lower
  if jsIncludes (str "image/jpeg") s then some (str "jpg")
  else if jsIncludes (str "image/png") s then some (str "png")
  else if jsIncludes (str "image/webp") s then some (str "webp")
  else if jsIncludes (str "image/gif") s then some (str "gif")
  else none

/-- `extFromUrl`: suffix checks on the lowercased `new URL(u).pathname`;
`pathnameOf u = none` models the `new URL` constructor throwing. -/
def extFromUrl (pathnameOf : JStr → Option JStr) (lower : Char → List Char)
    (u : JStr) : Option JStr :=
  match pathnameOf u with
  | none => none
  | some p0 =>
    let p := p0.flatMap lower
    if jsEndsWith p (str ".jpg") || jsEndsWith p (str ".jpeg") then some (str "jpg")
    else if jsEndsWith p (str ".png") then some (str "png")
    else if jsEndsWith p (str ".webp") then some (str "webp")
    else if jsEndsWith p (str ".gif") then some (str "gif")
    else none

/-- One fetched image: `ok`, `status`, the `content-type` header (`none` =
header absent), and the downloaded bytes. -/
structure FetchImgResp where
  ok : Bool
  status : Int
  contentType : Option JStr
  body : List Nat

/-- The migrator's environment: the network, the object store's HEAD
(`headOk key = true` iff the object exists so `HeadObjectCommand` resolves),
the `URL` pathname parser, `toLowerCase`, and SHA-256 in hex.  `PutObject`
is assumed to resolve; only whether it is issued is tracked. -/
structure UploadWorld where
  fetchImg : JStr → Except JStr FetchImgResp
  headOk : JStr → Bool
  pathnameOf : JStr → Option JStr
  lower : Char → List Char
  sha256hex : List Nat → JStr

/-- `extFromContentType(contentType) || extFromUrl(sourceUrl) || 'jpg'`
where `contentType = res.headers.get('content-type') || ''`. -/
def extOf (w : UploadWorld) (res : FetchImgResp) (u : JStr) : JStr :=
  falsyOr (orFalsy (extFromContentType w.lower (res.contentType.getD []))
    (extFromUrl w.pathnameOf w.lower u)) (str "jpg")

/-- The object key: `used-cars/` ++ sha256 hex of the body ++ `.` ++ ext. -/
def uploadKey (w : UploadWorld) (res : FetchImgResp) (u : JStr) : JStr :=
  str "used-cars/" ++ w.sha256hex res.body ++ '.' :: extOf w res u

/-- `cache[sourceUrl] = outUrl` on an insertion-ordered association list. -/
def cacheUpd (m : List (JStr × JStr)) (k v : JStr) : List (JStr × JStr) :=
  if (mapGet m k).isSome then
    m.map (fun e => if e.1 = k then (e.1, v) else e)
  else m ++ [(k, v)]

/-- The cache-miss path of `ensureUploaded` (everything after the early
return).  Result: the public URL, the updated cache, and whether a PUT was
issued (the HEAD threw). -/
def ensureUploadedFetch (w : UploadWorld) (publicBase : JStr)
    (cache : List (JStr × JStr)) (sourceUrl : JStr) :
    Except JStr (JStr × List (JStr × JStr) × Bool) :=
  match w.fetchImg sourceUrl with
  | .error e => .error e
  | .ok res =>
    if !res.ok then .error (str "Fetch failed")
    else if res.body.length = 0 then .error (str "Empty body")
    else
      let key := uploadKey w res sourceUrl
      let outUrl := publicBase ++ '/' :: key
      .ok (outUrl, cacheUpd cache sourceUrl outUrl, !w.headOk key)

/-- `ensureUploaded`: `if (cache[sourceUrl]) return cache[sourceUrl]`
(a truthiness check, so an empty cached string does not short-circuit),
else the fetch path. -/
def ensureUploaded (w : UploadWorld) (publicBase : JStr)
    (cache : List (JStr × JStr)) (sourceUrl : JStr) :
    Except JStr (JStr × List (JStr × JStr) × Bool) :=
  match mapGet cache sourceUrl with
  | some cached =>
    if cached = [] then ensureUploadedFetch w publicBase cache sourceUrl
    else .ok (cached, cache, false)
  | none => ensureUploadedFetch w publicBase cache sourceUrl

/-- C6: the object key depends only on the downloaded bytes and the derived
extension.  Two source URLs whose fetches succeed with identical byte
content and equal derived extensions produce the same key
`used-cars/<sha256 hex>.<ext>` and the same public URL; and whenever the
HEAD request finds the object, the returned `didPut` flag is false — no PUT
is issued. -/
theorem ensureUploaded_content_addressed
    (w : UploadWorld) (publicBase u1 u2 : JStr) (r1 r2 : FetchImgResp)
    (h1 : w.fetchImg u1 = .ok r1) (h2 : w.fetchImg u2 = .ok r2)
    (hok1 : r1.ok = true) (hok2 : r2.ok = true)
    (hbody : r2.body = r1.body) (hne : r1.body ≠ [])
    (hext : extOf w r2 u2 = extOf w r1 u1) :
    ensureUploaded w publicBase [] u1 =
      .ok (publicBase ++ '/' :: uploadKey w r1 u1,
        [(u1, publicBase ++ '/' :: uploadKey w r1 u1)],
        !w.headOk (uploadKey w r1 u1)) ∧
    ensureUploaded w publicBase [] u2 =
      .ok (publicBase ++ '/' :: uploadKey w r1 u1,
        [(u2, publicBase ++ '/' :: uploadKey w r1 u1)],
        !w.headOk (uploadKey w r1 u1)) ∧
    (w.headOk (uploadKey w r1 u1) = true →
      (!w.headOk (uploadKey w r1 u1)) = false) := by
  have hne1 : ¬(r1.body.length = 0) := fun h => hne (List.length_eq_zero.mp h)
  have hne2 : ¬(r2.body.length = 0) := fun h => hne (by rw [← hbody]; exact List.length_eq_zero.mp h)
  have hk : uploadKey w r2 u2 = uploadKey w r1 u1 := by
    unfold uploadKey
    rw [hbody, hext]
  refine ⟨?_, ?_, fun hhead => by rw [hhead]; rfl⟩
  · show ensureUploadedFetch w publicBase [] u1 = _
    unfold ensureUploadedFetch
    rw [h1]
    simp [hok1, hne1]
    rfl
  · show ensureUploadedFetch w publicBase [] u2 = _
    unfold ensureUploadedFetch
    rw [h2]
    simp only [hok2, hne2, Bool.not_true, Bool.false_eq_true, if_false,
      ite_false, eq_self_iff_true]
    rw [hk]
    rfl

/-- Witness for C6: a constant world where two different URLs download the
same PNG bytes; both map to the key of those bytes and, the HEAD finding
the object, neither issues a PUT. -/
theorem ensureUploaded_content_addressed_witness :
    ensureUploaded
      ⟨fun _ => .ok ⟨true, 200, some (str "image/png"), [1, 2, 3]⟩,
       fun _ => true, fun _ => none, fun c => [c], fun _ => str "abc"⟩
      (str "https://img.example") []
      (str "https://a.example/one") =
      .ok (str "https://img.example" ++ '/' ::
          uploadKey
            ⟨fun _ => .ok ⟨true, 200, some (str "image/png"), [1, 2, 3]⟩,
             fun _ => true, fun _ => none, fun c => [c], fun _ => str "abc"⟩
            ⟨true, 200, some (str "image/png"), [1, 2, 3]⟩
            (str "https://a.example/one"),
        [(str "https://a.example/one",
          str "https://img.example" ++ '/' ::
            uploadKey
              ⟨fun _ => .ok ⟨true, 200, some (str "image/png"), [1, 2, 3]⟩,
               fun _ => true, fun _ => none, fun c => [c], fun _ => str "abc"⟩
              ⟨true, 200, some (str "image/png"), [1, 2, 3]⟩
              (str "https://a.example/one"))], false) := by
  have h := ensureUploaded_content_addressed
    ⟨fun _ => .ok ⟨true, 200, some (str "image/png"), [1, 2, 3]⟩,
     fun _ => true, fun _ => none, fun c => [c], fun _ => str "abc"⟩
    (str "https://img.example")
    (str "https://a.example/one") (str "https://b.example/two")
    ⟨true, 200, some (str "image/png"), [1, 2, 3]⟩
    ⟨true, 200, some (str "image/png"), [1, 2, 3]⟩
    rfl rfl rfl rfl rfl (by decide) rfl
  simpa using h.1

/-! #### Module-level memoization in `dealers.ts` (C7) -/

/-- The fixed inputs of the dealers module: the Unicode primitives used by
`slugify`, `localeCompare`, and the eagerly-globbed city JSON modules. -/
structure DealerEnv where
  nfkd : Char → List Char
  lower : Char → List Char
  lcmp : JStr → JStr → Int
  mods : List (JStr × List DealerRecord)

/-- The module-level mutable state: `_allDealers`, `_cities`,
`_dealersByCity` (each `undefined` until first populated). -/
structure ModState where
  allD : Option (List Dealer)
  cities : Option (List CityIndex)
  byCity : Option (List (JStr × List Dealer))

/-- Stateful `getAllDealers`: `if (_allDealers) return _allDealers` (the
cached value is an array, hence truthy even when empty), else compute and
memoize. -/
def getAllDealersS (env : DealerEnv) (s : ModState) : List Dealer × ModState :=
  match s.allD with
  | some v => (v, s)
  | none =>
    let v := getAllDealersFrom env.nfkd env.lower env.mods
    (v, { s with allD := some v })

/-- Stateful `getCities`. -/
def getCitiesS (env : DealerEnv) (s : ModState) : List CityIndex × ModState :=
  match s.cities with
  | some v => (v, s)
  | none =>
    let p := getAllDealersS env s
    let v := computeCities env.lcmp p.1
    (v, { p.2 with cities := some v })

/-- Stateful `getDealersByCitySlug`. -/
def getDealersByCityS (env : DealerEnv) (s : ModState) (cs : JStr) :
    List Dealer × ModState :=
  match s.byCity with
  | some m => ((mapGet m cs).getD [], s)
  | none =>
    let p := getAllDealersS env s
    let m := computeByCity env.lcmp p.1
    ((mapGet m cs).getD [], { p.2 with byCity := some m })

/-- Stateful `findDealer`. -/
def findDealerS (env : DealerEnv) (s : ModState) (cs dsg : JStr) :
    Option Dealer × ModState :=
  let p := getDealersByCityS env s cs
  (p.1.find? (fun d => decide (d.dealerSlug = dsg)), p.2)

/-- One exported call into the dealers module. -/
inductive DealerOp where
  | allOp
  | citiesOp
  | byCityOp (cs : JStr)
  | findOp (cs dsg : JStr)
deriving DecidableEq

/-- The state left behind by one call. -/
def runOp (env : DealerEnv) (s : ModState) : DealerOp → ModState
  | .allOp => (getAllDealersS env s).2
  | .citiesOp => (getCitiesS env s).2
  | .byCityOp cs => (getDealersByCityS env s cs).2
  | .findOp cs dsg => (findDealerS env s cs dsg).2

/-- Each memo field is either still unset or holds its canonical value. -/
def GoodState (env : DealerEnv) (s : ModState) : Prop :=
  (s.allD = none ∨ s.allD = some (getAllDealersFrom env.nfkd env.lower env.mods)) ∧
  (s.cities = none ∨
    s.cities = some (computeCities env.lcmp (getAllDealersFrom env.nfkd env.lower env.mods))) ∧
  (s.byCity = none ∨
    s.byCity = some (computeByCity env.lcmp (getAllDealersFrom env.nfkd env.lower env.mods)))

theorem getAllDealersS_good (env : DealerEnv) (s : ModState)
    (h : GoodState env s) :
    (getAllDealersS env s).1 = getAllDealersFrom env.nfkd env.lower env.mods ∧
    (getAllDealersS env s).2.allD
        = some (getAllDealersFrom env.nfkd env.lower env.mods) ∧
    (getAllDealersS env s).2.cities = s.cities ∧
    (getAllDealersS env s).2.byCity = s.byCity ∧
    GoodState env (getAllDealersS env s).2 := by
  obtain ⟨ha, hc, hb⟩ := h
  rcases ha with ha | ha
  · unfold getAllDealersS
    rw [ha]
    exact ⟨rfl, rfl, rfl, rfl, Or.inr rfl, hc, hb⟩
  · unfold getAllDealersS
    rw [ha]
    exact ⟨rfl, ha, rfl, rfl, Or.inr ha, hc, hb⟩

theorem getCitiesS_good (env : DealerEnv) (s : ModState)
    (h : GoodState env s) :
    (getCitiesS env s).1
        = computeCities env.lcmp (getAllDealersFrom env.nfkd env.lower env.mods) ∧
    (getCitiesS env s).2.cities
        = some (computeCities env.lcmp (getAllDealersFrom env.nfkd env.lower env.mods)) ∧
    GoodState env (getCitiesS env s).2 := by
  obtain ⟨hres, hmemo, hcs, hbs, hgood⟩ := getAllDealersS_good env s h
  rcases h.2.1 with hc | hc
  · unfold getCitiesS
    rw [hc]
    dsimp only
    rw [hres]
    refine ⟨rfl, rfl, ?_⟩
    obtain ⟨ga, _, gb⟩ := hgood
    exact ⟨ga, Or.inr rfl, gb⟩
  · unfold getCitiesS
    rw [hc]
    exact ⟨rfl, hc, h⟩

theorem getDealersByCityS_good (env : DealerEnv) (s : ModState) (cs : JStr)
    (h : GoodState env s) :
    (getDealersByCityS env s cs).1
        = (mapGet (computeByCity env.lcmp
            (getAllDealersFrom env.nfkd env.lower env.mods)) cs).getD [] ∧
    GoodState env (getDealersByCityS env s cs).2 := by
  obtain ⟨hres, hmemo, hcs, hbs, hgood⟩ := getAllDealersS_good env s h
  rcases h.2.2 with hb | hb
  · unfold getDealersByCityS
    rw [hb]
    dsimp only
    rw [hres]
    refine ⟨rfl, ?_⟩
    obtain ⟨ga, gc, _⟩ := hgood
    exact ⟨ga, gc, Or.inr rfl⟩
  · unfold getDealersByCityS
    rw [hb]
    exact ⟨rfl, h⟩

theorem runOp_good (env : DealerEnv) (s : ModState) (op : DealerOp)
    (h : GoodState env s) : GoodState env (runOp env s op) := by
  cases op with
  | allOp => exact (getAllDealersS_good env s h).2.2.2.2
  | citiesOp => exact (getCitiesS_good env s h).2.2
  | byCityOp cs => exact (getDealersByCityS_good env s cs h).2
  | findOp cs dsg => exact (getDealersByCityS_good env s cs h).2

theorem foldl_runOp_good (env : DealerEnv) (ops : List DealerOp)
    (s : ModState) (h : GoodState env s) :
    GoodState env (ops.foldl (runOp env) s) := by
  induction ops generalizing s with
  | nil => exact h
  | cons op rest ih => exact ih _ (runOp_good env s op h)

theorem allOp_sets_memo (env : DealerEnv) (ops : List DealerOp)
    (s : ModState) (h : GoodState env s)
    (hset : s.allD = some (getAllDealersFrom env.nfkd env.lower env.mods) ∨
      DealerOp.allOp ∈ ops) :
    (ops.foldl (runOp env) s).allD
      = some (getAllDealersFrom env.nfkd env.lower env.mods) := by
  induction ops generalizing s with
  | nil =>
    rcases hset with hset | hset
    · exact hset
    · cases hset
  | cons op rest ih =>
    refine ih _ (runOp_good env s op h) ?_
    rcases hset with hset | hset
    · left
      obtain ⟨hres, hmemo, hcs, hbs, hgood⟩ := getAllDealersS_good env s h
      cases op with
      | allOp => exact hmemo
      | citiesOp =>
        rcases h.2.1 with hc | hc
        · show (getCitiesS env s).2.allD = _
          unfold getCitiesS
          rw [hc]
          exact hmemo
        · show (getCitiesS env s).2.allD = _
          unfold getCitiesS
          rw [hc]
          exact hset
      | byCityOp cs =>
        rcases h.2.2 with hb | hb
        · show (getDealersByCityS env s cs).2.allD = _
          unfold getDealersByCityS
          rw [hb]
          exact hmemo
        · show (getDealersByCityS env s cs).2.allD = _
          unfold getDealersByCityS
          rw [hb]
          exact hset
      | findOp cs dsg =>
        rcases h.2.2 with hb | hb
        · show (getDealersByCityS env s cs).2.allD = _
          unfold getDealersByCityS
          rw [hb]
          exact hmemo
        · show (getDealersByCityS env s cs).2.allD = _
          unfold getDealersByCityS
          rw [hb]
          exact hset
    · rcases List.mem_cons.mp hset with heq | hmem
      · left
        subst heq
        exact (getAllDealersS_good env s h).2.1
      · exact Or.inr hmem

/-- C7: starting from the unloaded module state, after any sequence of
calls into the dealers module, `getAllDealers` and `getCities` still return
exactly the canonical values computed from the loaded modules — every call
returns the identical list the first call produced — and once `getAllDealers`
(resp. `getCities`) has been called, the memo holds exactly that first
result and no later call changes it. -/
theorem dealerMemo_spec (env : DealerEnv) (ops : List DealerOp) :
    (getAllDealersS env (ops.foldl (runOp env) ⟨none, none, none⟩)).1
        = getAllDealersFrom env.nfkd env.lower env.mods ∧
    (getCitiesS env (ops.foldl (runOp env) ⟨none, none, none⟩)).1
        = computeCities env.lcmp (getAllDealersFrom env.nfkd env.lower env.mods) ∧
    (DealerOp.allOp ∈ ops →
      (ops.foldl (runOp env) ⟨none, none, none⟩).allD
        = some (getAllDealersFrom env.nfkd env.lower env.mods)) := by
  have hinit : GoodState env ⟨none, none, none⟩ :=
    ⟨Or.inl rfl, Or.inl rfl, Or.inl rfl⟩
  have hgood := foldl_runOp_good env ops ⟨none, none, none⟩ hinit
  exact ⟨(getAllDealersS_good env _ hgood).1, (getCitiesS_good env _ hgood).1,
    fun hmem => allOp_sets_memo env ops ⟨none, none, none⟩ hinit (Or.inr hmem)⟩

/-- Witness for C7 on a two-call history with trivial Unicode primitives
and no data modules. -/
theorem dealerMemo_spec_witness :
    (getAllDealersS ⟨fun c => [c], fun c => [c], fun _ _ => 0, []⟩
      (([DealerOp.allOp, DealerOp.citiesOp]).foldl
        (runOp ⟨fun c => [c], fun c => [c], fun _ _ => 0, []⟩)
        ⟨none, none, none⟩)).1
      = getAllDealersFrom (fun c => [c]) (fun c => [c]) [] ∧
    (([DealerOp.allOp, DealerOp.citiesOp]).foldl
        (runOp ⟨fun c => [c], fun c => [c], fun _ _ => 0, []⟩)
        ⟨none, none, none⟩).allD
      = some (getAllDealersFrom (fun c => [c]) (fun c => [c]) []) := by
  have h := dealerMemo_spec ⟨fun c => [c], fun c => [c], fun _ _ => 0, []⟩
    [DealerOp.allOp, DealerOp.citiesOp]
  exact ⟨h.1, h.2.2 (List.mem_cons_self _ _)⟩

end CarsIndian
